import Mathlib

/-!
# Verification of the wave_stream WAV codec library

A shallow embedding, in Lean 4, of the core of the `wave_stream` Rust crate:
the channel model, the sample-conversion engine, the random-access read/write
engine, the streaming iterator, the flush/finalization bookkeeping and the
header parser.  Machine integers are modelled as `Int`/`Nat` with explicit
wrap-arounds (`emod 2^w`) where the Rust code performs an `as` cast or relies
on two's-complement byte encodings.  Byte streams are `List Nat` with every
element in `0..256`.  Fallible Rust functions returning `std::io::Result` are
modelled with an explicit result type `RResult`.

`f32` samples are modelled by their 32-bit IEEE-754 bit pattern (a `Nat`-like
`Int` in `[0, 2^32)`): the library reads and writes floats verbatim, so every
statement about float samples here is a statement about bit patterns.  The one
place where float *arithmetic* appears (`i24_to_f32`) is modelled over `ℚ`;
only its error behaviour (the 24-bit range check) is the subject of theorems.
-/

namespace WaveStream

/-- Sample format (src/wave_header.rs `SampleFormat`). -/
inductive SampleFormat where
  | Int8
  | Int16
  | Int24
  | Float
deriving DecidableEq, Repr

/-- src/wave_header.rs `SampleFormatSize::bytes_per_sample`. -/
def SampleFormat.bytes_per_sample : SampleFormat → Nat
  | .Float => 4
  | .Int24 => 3
  | .Int16 => 2
  | .Int8 => 1

/-- src/wave_header.rs `SampleFormatSize::bits_per_sample`. -/
def SampleFormat.bits_per_sample (f : SampleFormat) : Nat :=
  f.bytes_per_sample * 8

/-- The `std::io::ErrorKind` values used by the library. -/
inductive ErrorKind where
  | InvalidInput
  | InvalidData
  | Unsupported
  | UnexpectedEof
  | Other
deriving DecidableEq, Repr

/-- A `std::io::Error`: a kind plus its message. -/
structure IoError where
  kind : ErrorKind
  msg : String
deriving DecidableEq, Repr

/-- `std::io::Result`: either a value or an `IoError`. -/
inductive RResult (α : Type) where
  | ok (value : α)
  | err (e : IoError)
deriving DecidableEq, Repr

instance : Monad RResult where
  pure := .ok
  bind := fun r f => match r with | .ok v => f v | .err e => .err e

def RResult.isOk {α : Type} : RResult α → Bool
  | .ok _ => true
  | .err _ => false

/-- Modelled from the spec: the file `constants.rs` (declared by lib.rs as
`mod constants;`) is absent from the sources; §4.2 of the spec fixes the
24-bit sample range as `[-8388608, 8388607]`, matching the uses of
`MIN_INT_24`/`MAX_INT_24` throughout the code and its tests. -/
def MIN_INT_24 : Int := -8388608

/-- Modelled from the spec: see `MIN_INT_24`. -/
def MAX_INT_24 : Int := 8388607

/-- src/assertions.rs `assert_int_24`. -/
def assert_int_24 (v : Int) : RResult Unit :=
  if v < MIN_INT_24 ∨ v > MAX_INT_24 then
    .err ⟨.InvalidData, "Value must be a valid 24-bit integer"⟩
  else
    .ok ()

/-- src/upconvert.rs `i16_to_i24` (the `i16` argument is widened to `i32`
before the arithmetic, which therefore cannot overflow). -/
def i16_to_i24 (sample_i16 : Int) : RResult Int :=
  .ok (if sample_i16 ≥ 0 then (sample_i16 + 1) * 256 - 1 else sample_i16 * 256)

/-- src/upconvert.rs `i8_to_i24`. -/
def i8_to_i24 (sample_i8 : Int) : RResult Int :=
  .ok (if sample_i8 ≥ 0 then (sample_i8 + 1) * 65536 - 1 else sample_i8 * 65536)

/-- Rust's `as i16` cast on an `i32` value: wrap into `[-2^15, 2^15)`. -/
def wrap_i16 (v : Int) : Int :=
  (v + 32768) % 65536 - 32768

/-- src/upconvert.rs `i8_to_i16`: the arithmetic is carried out in `i32`
and the result cast back with `as i16`. -/
def i8_to_i16 (sample_i8 : Int) : RResult Int :=
  .ok (wrap_i16 (if sample_i8 ≥ 0 then (sample_i8 + 1) * 256 - 1 else sample_i8 * 256))

/-- src/upconvert.rs `i24_to_f32`.  The float arithmetic is idealized over
`ℚ` (no rounding); only the error behaviour of this function is used in the
theorems below. -/
def i24_to_f32 (sample_i24 : Int) : RResult ℚ := do
  let _ ← assert_int_24 sample_i24
  pure (((sample_i24 : ℚ) + 8388608) / (8388607.5 : ℚ) - 1)

/-- Little-endian bytes of a `u32` value (`u32::to_le_bytes`). -/
def u32_le (u : Nat) : List Nat :=
  [u % 256, u / 256 % 256, u / 65536 % 256, u / 16777216 % 256]

/-- Little-endian bytes of a `u16` value (`u16::to_le_bytes`). -/
def u16_le (u : Nat) : List Nat :=
  [u % 256, u / 256 % 256]

/-- src/writer.rs `write_i8`: `i8::to_le_bytes`, one two's-complement byte. -/
def write_i8 (v : Int) : List Nat :=
  [(v % 256).toNat]

/-- src/writer.rs `write_i16`: `i16::to_le_bytes`, two little-endian
two's-complement bytes. -/
def write_i16 (v : Int) : List Nat :=
  u16_le ((v % 65536).toNat)

/-- src/writer.rs `write_i24`: after `assert_int_24`, the Rust code computes
`(v << 8).to_le_bytes()` on `i32` (the little-endian bytes of
`v * 256 mod 2^32`) and writes bytes 1..4 of that array. -/
def write_i24 (v : Int) : RResult (List Nat) := do
  let _ ← assert_int_24 v
  let u := ((v * 256) % 4294967296).toNat
  pure [u / 256 % 256, u / 65536 % 256, u / 16777216 % 256]

/-- src/writer.rs `write_f32`: an f32 is written verbatim; `v` is its 32-bit
pattern in `[0, 2^32)`. -/
def write_f32 (v : Int) : List Nat :=
  u32_le v.toNat

/-- src/reader.rs `read_i8`: `i8::from_le_bytes` of one byte. -/
def read_i8 (bs : List Nat) : Int :=
  let b0 := bs.getD 0 0
  if b0 < 128 then (b0 : Int) else (b0 : Int) - 256

/-- src/reader.rs `read_i16`: `i16::from_le_bytes` of two bytes. -/
def read_i16 (bs : List Nat) : Int :=
  let u := bs.getD 0 0 + 256 * bs.getD 1 0
  if u < 32768 then (u : Int) else (u : Int) - 65536

/-- src/reader.rs `read_i24`: the three bytes are placed in positions 1..4 of
a little-endian `i32` (`[0, b0, b1, b2]`) and the result is shifted right
arithmetically by 8.  On `Int`, `/` is Euclidean division, which agrees with
the arithmetic shift (floor division) because the divisor 256 is positive. -/
def read_i24 (bs : List Nat) : Int :=
  let u := 256 * bs.getD 0 0 + 65536 * bs.getD 1 0 + 16777216 * bs.getD 2 0
  let s : Int := if u < 2147483648 then (u : Int) else (u : Int) - 4294967296
  s / 256

/-- src/reader.rs `read_f32`: an f32 is read verbatim; the result is its
32-bit little-endian pattern. -/
def read_f32 (bs : List Nat) : Int :=
  ((bs.getD 0 0 + 256 * bs.getD 1 0 + 65536 * bs.getD 2 0 + 16777216 * bs.getD 3 0 : Nat) : Int)

/-- The native sample serializer for each format: the conversion bound by
`get_random_access_*_writer` when the element type equals the file's stored
format (`write_i8`/`write_i16`/`write_i24`/`write_f32`). -/
def writeNativeSample (fmt : SampleFormat) (v : Int) : RResult (List Nat) :=
  match fmt with
  | .Int8 => .ok (write_i8 v)
  | .Int16 => .ok (write_i16 v)
  | .Int24 => write_i24 v
  | .Float => .ok (write_f32 v)

/-- The native sample deserializer for each format: the conversion bound by
`get_random_access_*_reader` when the element type equals the file's stored
format (`read_i8`/`read_i16`/`read_i24`/`read_f32`). -/
def readNativeSample (fmt : SampleFormat) (bs : List Nat) : Int :=
  match fmt with
  | .Int8 => read_i8 bs
  | .Int16 => read_i16 bs
  | .Int24 => read_i24 bs
  | .Float => read_f32 bs

/-- The values representable by each format's native element type: the `i8`,
`i16` ranges, the 24-bit range enforced by `assert_int_24`, and for floats
the set of 32-bit patterns. -/
def validSample : SampleFormat → Int → Prop
  | .Int8, v => -128 ≤ v ∧ v ≤ 127
  | .Int16, v => -32768 ≤ v ∧ v ≤ 32767
  | .Int24, v => MIN_INT_24 ≤ v ∧ v ≤ MAX_INT_24
  | .Float, v => 0 ≤ v ∧ v < 4294967296

theorem write_i16_length (v : Int) : (write_i16 v).length = 2 := rfl

theorem assert_int_24_ok (v : Int) (h1 : MIN_INT_24 ≤ v) (h2 : v ≤ MAX_INT_24) :
    assert_int_24 v = .ok () := by
  simp only [assert_int_24, MIN_INT_24, MAX_INT_24] at *
  split
  · omega
  · rfl

theorem write_i24_ok (v : Int) (h1 : MIN_INT_24 ≤ v) (h2 : v ≤ MAX_INT_24) :
    write_i24 v = .ok [((v * 256) % 4294967296).toNat / 256 % 256,
      ((v * 256) % 4294967296).toNat / 65536 % 256,
      ((v * 256) % 4294967296).toNat / 16777216 % 256] := by
  unfold write_i24
  rw [assert_int_24_ok v h1 h2]
  rfl

theorem write_i24_err (v : Int) (h : v < MIN_INT_24 ∨ v > MAX_INT_24) :
    write_i24 v = .err ⟨.InvalidData, "Value must be a valid 24-bit integer"⟩ := by
  unfold write_i24 assert_int_24
  rw [if_pos h]
  rfl

theorem writeNativeSample_length (fmt : SampleFormat) (v : Int) (bs : List Nat)
    (h : writeNativeSample fmt v = .ok bs) : bs.length = fmt.bytes_per_sample := by
  cases fmt
  · cases h; rfl
  · cases h; rfl
  · by_cases hc : v < MIN_INT_24 ∨ v > MAX_INT_24
    · rw [show writeNativeSample .Int24 v = write_i24 v from rfl, write_i24_err v hc] at h
      exact RResult.noConfusion h
    · have hc2 : MIN_INT_24 ≤ v ∧ v ≤ MAX_INT_24 := by
        simp only [MIN_INT_24, MAX_INT_24] at hc ⊢
        omega
      rw [show writeNativeSample .Int24 v = write_i24 v from rfl,
        write_i24_ok v hc2.1 hc2.2] at h
      cases h; rfl
  · cases h; rfl

theorem readNative_writeNative (fmt : SampleFormat) (v : Int) (h : validSample fmt v) :
    ∃ bs, writeNativeSample fmt v = .ok bs ∧ readNativeSample fmt bs = v := by
  cases fmt
  · refine ⟨write_i8 v, rfl, ?_⟩
    simp only [validSample] at h
    simp only [readNativeSample, read_i8, write_i8, List.getD_cons_zero]
    omega
  · refine ⟨write_i16 v, rfl, ?_⟩
    simp only [validSample] at h
    simp only [readNativeSample, read_i16, write_i16, u16_le, List.getD_cons_zero,
      List.getD_cons_succ]
    omega
  · simp only [validSample] at h
    refine ⟨_, write_i24_ok v h.1 h.2, ?_⟩
    simp only [MIN_INT_24, MAX_INT_24] at h
    simp only [readNativeSample, read_i24, List.getD_cons_zero, List.getD_cons_succ]
    omega
  · refine ⟨write_f32 v, rfl, ?_⟩
    simp only [validSample] at h
    simp only [readNativeSample, read_f32, write_f32, u32_le, List.getD_cons_zero,
      List.getD_cons_succ]
    omega

/-- src/wave_header.rs `Channels`: one flag per standard speaker position. -/
structure Channels where
  front_left : Bool
  front_right : Bool
  front_center : Bool
  low_frequency : Bool
  back_left : Bool
  back_right : Bool
  front_left_of_center : Bool
  front_right_of_center : Bool
  back_center : Bool
  side_left : Bool
  side_right : Bool
  top_center : Bool
  top_front_left : Bool
  top_front_center : Bool
  top_front_right : Bool
  top_back_left : Bool
  top_back_center : Bool
  top_back_right : Bool
deriving DecidableEq, Repr

/-- src/wave_header.rs `Channels::count`: the mutable accumulator of the Rust
code, incremented once per set flag. -/
def Channels.count (c : Channels) : Nat :=
  (if c.front_left then 1 else 0) +
  (if c.front_right then 1 else 0) +
  (if c.front_center then 1 else 0) +
  (if c.low_frequency then 1 else 0) +
  (if c.back_left then 1 else 0) +
  (if c.back_right then 1 else 0) +
  (if c.front_left_of_center then 1 else 0) +
  (if c.front_right_of_center then 1 else 0) +
  (if c.back_center then 1 else 0) +
  (if c.side_left then 1 else 0) +
  (if c.side_right then 1 else 0) +
  (if c.top_center then 1 else 0) +
  (if c.top_front_left then 1 else 0) +
  (if c.top_front_center then 1 else 0) +
  (if c.top_front_right then 1 else 0) +
  (if c.top_back_left then 1 else 0) +
  (if c.top_back_center then 1 else 0) +
  (if c.top_back_right then 1 else 0)

/-- src/wave_header.rs `Channels::channel_mask`: the mutable accumulator of
the Rust code, OR-ing in one fixed bit per set flag. -/
def Channels.channel_mask (c : Channels) : Nat :=
  (((((((((((((((((((0 : Nat)
    ||| (if c.front_left then 0x1 else 0))
    ||| (if c.front_right then 0x2 else 0))
    ||| (if c.front_center then 0x4 else 0))
    ||| (if c.low_frequency then 0x8 else 0))
    ||| (if c.back_left then 0x10 else 0))
    ||| (if c.back_right then 0x20 else 0))
    ||| (if c.front_left_of_center then 0x40 else 0))
    ||| (if c.front_right_of_center then 0x80 else 0))
    ||| (if c.back_center then 0x100 else 0))
    ||| (if c.side_left then 0x200 else 0))
    ||| (if c.side_right then 0x400 else 0))
    ||| (if c.top_center then 0x800 else 0))
    ||| (if c.top_front_left then 0x1000 else 0))
    ||| (if c.top_front_center then 0x2000 else 0))
    ||| (if c.top_front_right then 0x4000 else 0))
    ||| (if c.top_back_left then 0x8000 else 0))
    ||| (if c.top_back_center then 0x10000 else 0))
    ||| (if c.top_back_right then 0x20000 else 0))

/-- src/wave_header.rs `WavHeader::from_reader_extensible`, lines 354-373:
the `Channels` derived bit-by-bit from a 32-bit channel mask. -/
def channelsOfMask (channel_mask : Nat) : Channels where
  front_left := channel_mask &&& 0x1 == 0x1
  front_right := channel_mask &&& 0x2 == 0x2
  front_center := channel_mask &&& 0x4 == 0x4
  low_frequency := channel_mask &&& 0x8 == 0x8
  back_left := channel_mask &&& 0x10 == 0x10
  back_right := channel_mask &&& 0x20 == 0x20
  front_left_of_center := channel_mask &&& 0x40 == 0x40
  front_right_of_center := channel_mask &&& 0x80 == 0x80
  back_center := channel_mask &&& 0x100 == 0x100
  side_left := channel_mask &&& 0x200 == 0x200
  side_right := channel_mask &&& 0x400 == 0x400
  top_center := channel_mask &&& 0x800 == 0x800
  top_front_left := channel_mask &&& 0x1000 == 0x1000
  top_front_center := channel_mask &&& 0x2000 == 0x2000
  top_front_right := channel_mask &&& 0x4000 == 0x4000
  top_back_left := channel_mask &&& 0x8000 == 0x8000
  top_back_center := channel_mask &&& 0x10000 == 0x10000
  top_back_right := channel_mask &&& 0x20000 == 0x20000

/-- The 18 flags of a `Channels` in the fixed canonical order (front-left
first, top-back-right last), the order in which every reader/writer loop of
the library visits the channels. -/
def Channels.flagsList (c : Channels) : List Bool :=
  [c.front_left, c.front_right, c.front_center, c.low_frequency,
   c.back_left, c.back_right, c.front_left_of_center, c.front_right_of_center,
   c.back_center, c.side_left, c.side_right, c.top_center,
   c.top_front_left, c.top_front_center, c.top_front_right,
   c.top_back_left, c.top_back_center, c.top_back_right]

/-- Number of `true` entries of a flags list. -/
def countTrue : List Bool → Nat
  | [] => 0
  | b :: rest => (if b then 1 else 0) + countTrue rest

theorem Channels.count_eq_countTrue (c : Channels) :
    c.count = countTrue c.flagsList := by
  cases c
  simp only [Channels.count, Channels.flagsList, countTrue]
  ring

/-- src/samples_by_channel.rs `SamplesByChannel`. -/
structure SamplesByChannel (α : Type) where
  front_left : Option α
  front_right : Option α
  front_center : Option α
  low_frequency : Option α
  back_left : Option α
  back_right : Option α
  front_left_of_center : Option α
  front_right_of_center : Option α
  back_center : Option α
  side_left : Option α
  side_right : Option α
  top_center : Option α
  top_front_left : Option α
  top_front_center : Option α
  top_front_right : Option α
  top_back_left : Option α
  top_back_center : Option α
  top_back_right : Option α
deriving DecidableEq, Repr

/-- The 18 per-channel slots of a `SamplesByChannel` in canonical order. -/
def SamplesByChannel.optsList {α : Type} (s : SamplesByChannel α) : List (Option α) :=
  [s.front_left, s.front_right, s.front_center, s.low_frequency,
   s.back_left, s.back_right, s.front_left_of_center, s.front_right_of_center,
   s.back_center, s.side_left, s.side_right, s.top_center,
   s.top_front_left, s.top_front_center, s.top_front_right,
   s.top_back_left, s.top_back_center, s.top_back_right]

/-- Rebuild a `SamplesByChannel` from its 18 slots in canonical order. -/
def samplesOfOptsList {α : Type} (l : List (Option α)) : SamplesByChannel α where
  front_left := l.getD 0 none
  front_right := l.getD 1 none
  front_center := l.getD 2 none
  low_frequency := l.getD 3 none
  back_left := l.getD 4 none
  back_right := l.getD 5 none
  front_left_of_center := l.getD 6 none
  front_right_of_center := l.getD 7 none
  back_center := l.getD 8 none
  side_left := l.getD 9 none
  side_right := l.getD 10 none
  top_center := l.getD 11 none
  top_front_left := l.getD 12 none
  top_front_center := l.getD 13 none
  top_front_right := l.getD 14 none
  top_back_left := l.getD 15 none
  top_back_center := l.getD 16 none
  top_back_right := l.getD 17 none

theorem samplesOfOptsList_optsList {α : Type} (s : SamplesByChannel α) :
    samplesOfOptsList s.optsList = s := rfl

/-- A frame is well-formed for a channel layout when exactly the present
channels carry a value (`Some` iff the corresponding flag is set) — the
invariant of §3 of the spec, enforced at run time by the writers' `expect`
calls. -/
def wellFormedFrame {α : Type} (c : Channels) (s : SamplesByChannel α) : Prop :=
  List.Forall₂ (fun (b : Bool) (o : Option α) => o.isSome = b) c.flagsList s.optsList

/-- The per-channel write loop of `write_samples`/`write_all`: for each
channel, in canonical order, if the channel is present its value is taken
(`expect`, an error here models the Rust panic on a missing present channel)
and emitted; absent channels are skipped. -/
def packChannels {α : Type} : List Bool → List (Option α) → RResult (List α)
  | [], _ => .ok []
  | _ :: _, [] => .err ⟨.Other, "channel missing"⟩
  | b :: flags, o :: opts =>
    if b then
      match o with
      | some v => do
        let rest ← packChannels flags opts
        pure (v :: rest)
      | none => .err ⟨.Other, "channel missing"⟩
    else
      packChannels flags opts

/-- The per-channel read loop of `read_sample`/`read_samples`: for each
channel, in canonical order, a present channel takes the next decoded value
(`Some`) and an absent channel yields `None`. -/
def unpackChannels {α : Type} : List Bool → List α → List (Option α)
  | [], _ => []
  | true :: flags, v :: vals => some v :: unpackChannels flags vals
  | true :: flags, [] => none :: unpackChannels flags []
  | false :: flags, vals => none :: unpackChannels flags vals

theorem packChannels_wf {α : Type} (flags : List Bool) (opts : List (Option α))
    (h : List.Forall₂ (fun (b : Bool) (o : Option α) => o.isSome = b) flags opts) :
    ∃ vals, packChannels flags opts = .ok vals ∧
      vals.length = countTrue flags ∧
      unpackChannels flags vals = opts := by
  induction flags generalizing opts with
  | nil =>
    cases h
    exact ⟨[], rfl, rfl, rfl⟩
  | cons b flags ih =>
    rw [List.forall₂_cons_left_iff] at h
    obtain ⟨o, opts2, hbo, htail, rfl⟩ := h
    obtain ⟨vals, hpack, hlen, hunpack⟩ := ih _ htail
    cases b
    · have ho : o = none := by
        cases o
        · rfl
        · simp at hbo
      subst ho
      refine ⟨vals, ?_, ?_, ?_⟩
      · simpa [packChannels] using hpack
      · simp [countTrue, hlen]
      · simp [unpackChannels, hunpack]
    · obtain ⟨v, rfl⟩ : ∃ v, o = some v := by
        cases o
        · simp at hbo
        · exact ⟨_, rfl⟩
      refine ⟨v :: vals, ?_, ?_, ?_⟩
      · simp [packChannels, hpack, bind, pure]
      · simp only [countTrue, List.length_cons, hlen, if_true]
        omega
      · simp [unpackChannels, hunpack]

theorem RResult.bind_ok {α β : Type} (a : α) (f : α → RResult β) :
    (RResult.ok a >>= f) = f a := rfl

theorem RResult.bind_err {α β : Type} (e : IoError) (f : α → RResult β) :
    ((RResult.err e : RResult α) >>= f) = .err e := rfl

/-- C2: the integer widening conversions follow the spec's asymmetric
formulas — `i8_to_i16`/`i8_to_i24` map `v ≥ 0` to `((v+1)*k)-1` and `v < 0`
to `v*k` (k = 256 resp. 65536), `i16_to_i24` likewise with k = 256 — and
consequently each source type's extremes map exactly onto the target type's
extremes. -/
theorem c2_integer_widening_formulas :
    (∀ v : Int, -128 ≤ v → v ≤ 127 →
      i8_to_i16 v = .ok (if v ≥ 0 then (v + 1) * 256 - 1 else v * 256)) ∧
    (∀ v : Int, -128 ≤ v → v ≤ 127 →
      i8_to_i24 v = .ok (if v ≥ 0 then (v + 1) * 65536 - 1 else v * 65536)) ∧
    (∀ v : Int, -32768 ≤ v → v ≤ 32767 →
      i16_to_i24 v = .ok (if v ≥ 0 then (v + 1) * 256 - 1 else v * 256)) ∧
    i8_to_i16 127 = .ok 32767 ∧ i8_to_i16 (-128) = .ok (-32768) ∧
    i8_to_i24 127 = .ok 8388607 ∧ i8_to_i24 (-128) = .ok (-8388608) ∧
    i16_to_i24 32767 = .ok 8388607 ∧ i16_to_i24 (-32768) = .ok (-8388608) := by
  refine ⟨?_, fun v _ _ => rfl, fun v _ _ => rfl, by decide, by decide, by decide,
    by decide, by decide, by decide⟩
  intro v h1 h2
  simp only [i8_to_i16, wrap_i16, RResult.ok.injEq]
  split
  · omega
  · omega

/-- C2 witness: the widening formulas evaluated at concrete inputs. -/
theorem c2_integer_widening_formulas_witness :
    i8_to_i16 5 = .ok (if (5 : Int) ≥ 0 then (5 + 1) * 256 - 1 else 5 * 256) ∧
    i16_to_i24 (-3) = .ok (if (-3 : Int) ≥ 0 then (-3 + 1) * 256 - 1 else -3 * 256) :=
  ⟨c2_integer_widening_formulas.1 5 (by decide) (by decide),
   c2_integer_widening_formulas.2.2.1 (-3) (by decide) (by decide)⟩

/-- C8: for every value of the 32-bit container, `i24_to_f32` and
`write_i24` succeed exactly when the value lies in the 24-bit range
`[-8388608, 8388607]`, and return an invalid-data error otherwise. -/
theorem c8_int24_range_check (v : Int)
    (h1 : -2147483648 ≤ v) (h2 : v ≤ 2147483647) :
    ((i24_to_f32 v).isOk = true ↔ (-8388608 ≤ v ∧ v ≤ 8388607)) ∧
    ((write_i24 v).isOk = true ↔ (-8388608 ≤ v ∧ v ≤ 8388607)) := by
  by_cases hr : -8388608 ≤ v ∧ v ≤ 8388607
  · have hok : assert_int_24 v = .ok () := assert_int_24_ok v hr.1 hr.2
    have e1 : i24_to_f32 v = .ok (((v : ℚ) + 8388608) / (8388607.5 : ℚ) - 1) := by
      unfold i24_to_f32
      rw [hok, RResult.bind_ok]
      rfl
    have e2 := write_i24_ok v hr.1 hr.2
    rw [e1, e2]
    simp [RResult.isOk, hr]
  · have hr2 : v < MIN_INT_24 ∨ v > MAX_INT_24 := by
      simp only [MIN_INT_24, MAX_INT_24]
      omega
    have herr : assert_int_24 v = .err ⟨.InvalidData, "Value must be a valid 24-bit integer"⟩ := by
      unfold assert_int_24
      rw [if_pos hr2]
    have e1 : i24_to_f32 v = .err ⟨.InvalidData, "Value must be a valid 24-bit integer"⟩ := by
      unfold i24_to_f32
      rw [herr, RResult.bind_err]
    have e2 := write_i24_err v hr2
    rw [e1, e2]
    simp only [RResult.isOk, Bool.false_eq_true, false_iff]
    constructor <;> exact fun h => hr ⟨h.1, h.2⟩

/-- C8 witness: the range check evaluated at concrete in-range input. -/
theorem c8_int24_range_check_witness :
    ((i24_to_f32 8388607).isOk = true ↔ ((-8388608 : Int) ≤ 8388607 ∧ (8388607 : Int) ≤ 8388607)) ∧
    ((write_i24 8388607).isOk = true ↔ ((-8388608 : Int) ≤ 8388607 ∧ (8388607 : Int) ≤ 8388607)) :=
  c8_int24_range_check 8388607 (by decide) (by decide)

theorem ite_lor_push (b : Bool) (m v : Nat) :
    (if b then m ||| v else m) = m ||| (if b then v else 0) := by
  cases b
  · simp
  · simp

theorem testBit_ite (b : Bool) (x y : Nat) (j : Nat) :
    (if b then x else y).testBit j = if b then x.testBit j else y.testBit j := by
  cases b <;> rfl

theorem and_pow_beq (m j : Nat) : (m &&& 2 ^ j == 2 ^ j) = m.testBit j := by
  rw [Nat.and_two_pow]
  cases h : m.testBit j
  · have hp : (0 : Nat) < 2 ^ j := Nat.two_pow_pos j
    simp only [Bool.toNat_false, Nat.zero_mul]
    exact beq_false_of_ne (by omega)
  · simp

theorem and_bit0 (m : Nat) : (m &&& 1 == 1) = m.testBit 0 := by
  rw [show (1 : Nat) = 2 ^ 0 from rfl, and_pow_beq]

theorem and_bit1 (m : Nat) : (m &&& 2 == 2) = m.testBit 1 := by
  rw [show (2 : Nat) = 2 ^ 1 from rfl, and_pow_beq]

theorem and_bit2 (m : Nat) : (m &&& 4 == 4) = m.testBit 2 := by
  rw [show (4 : Nat) = 2 ^ 2 from rfl, and_pow_beq]

theorem and_bit3 (m : Nat) : (m &&& 8 == 8) = m.testBit 3 := by
  rw [show (8 : Nat) = 2 ^ 3 from rfl, and_pow_beq]

theorem and_bit4 (m : Nat) : (m &&& 16 == 16) = m.testBit 4 := by
  rw [show (16 : Nat) = 2 ^ 4 from rfl, and_pow_beq]

theorem and_bit5 (m : Nat) : (m &&& 32 == 32) = m.testBit 5 := by
  rw [show (32 : Nat) = 2 ^ 5 from rfl, and_pow_beq]

theorem and_bit6 (m : Nat) : (m &&& 64 == 64) = m.testBit 6 := by
  rw [show (64 : Nat) = 2 ^ 6 from rfl, and_pow_beq]

theorem and_bit7 (m : Nat) : (m &&& 128 == 128) = m.testBit 7 := by
  rw [show (128 : Nat) = 2 ^ 7 from rfl, and_pow_beq]

theorem and_bit8 (m : Nat) : (m &&& 256 == 256) = m.testBit 8 := by
  rw [show (256 : Nat) = 2 ^ 8 from rfl, and_pow_beq]

theorem and_bit9 (m : Nat) : (m &&& 512 == 512) = m.testBit 9 := by
  rw [show (512 : Nat) = 2 ^ 9 from rfl, and_pow_beq]

theorem and_bit10 (m : Nat) : (m &&& 1024 == 1024) = m.testBit 10 := by
  rw [show (1024 : Nat) = 2 ^ 10 from rfl, and_pow_beq]

theorem and_bit11 (m : Nat) : (m &&& 2048 == 2048) = m.testBit 11 := by
  rw [show (2048 : Nat) = 2 ^ 11 from rfl, and_pow_beq]

theorem and_bit12 (m : Nat) : (m &&& 4096 == 4096) = m.testBit 12 := by
  rw [show (4096 : Nat) = 2 ^ 12 from rfl, and_pow_beq]

theorem and_bit13 (m : Nat) : (m &&& 8192 == 8192) = m.testBit 13 := by
  rw [show (8192 : Nat) = 2 ^ 13 from rfl, and_pow_beq]

theorem and_bit14 (m : Nat) : (m &&& 16384 == 16384) = m.testBit 14 := by
  rw [show (16384 : Nat) = 2 ^ 14 from rfl, and_pow_beq]

theorem and_bit15 (m : Nat) : (m &&& 32768 == 32768) = m.testBit 15 := by
  rw [show (32768 : Nat) = 2 ^ 15 from rfl, and_pow_beq]

theorem and_bit16 (m : Nat) : (m &&& 65536 == 65536) = m.testBit 16 := by
  rw [show (65536 : Nat) = 2 ^ 16 from rfl, and_pow_beq]

theorem and_bit17 (m : Nat) : (m &&& 131072 == 131072) = m.testBit 17 := by
  rw [show (131072 : Nat) = 2 ^ 17 from rfl, and_pow_beq]

theorem testBit_ite_zero (b : Bool) (v : Nat) (j : Nat) :
    (if b then v else 0).testBit j = (b && v.testBit j) := by
  cases b
  · simp
  · simp

theorem testBit_lit0 (j : Nat) : Nat.testBit 1 j = decide (0 = j) := by
  rw [show (1 : Nat) = 2 ^ 0 from rfl]
  exact Nat.testBit_two_pow

theorem testBit_lit1 (j : Nat) : Nat.testBit 2 j = decide (1 = j) := by
  rw [show (2 : Nat) = 2 ^ 1 from rfl]
  exact Nat.testBit_two_pow

theorem testBit_lit2 (j : Nat) : Nat.testBit 4 j = decide (2 = j) := by
  rw [show (4 : Nat) = 2 ^ 2 from rfl]
  exact Nat.testBit_two_pow

theorem testBit_lit3 (j : Nat) : Nat.testBit 8 j = decide (3 = j) := by
  rw [show (8 : Nat) = 2 ^ 3 from rfl]
  exact Nat.testBit_two_pow

theorem testBit_lit4 (j : Nat) : Nat.testBit 16 j = decide (4 = j) := by
  rw [show (16 : Nat) = 2 ^ 4 from rfl]
  exact Nat.testBit_two_pow

theorem testBit_lit5 (j : Nat) : Nat.testBit 32 j = decide (5 = j) := by
  rw [show (32 : Nat) = 2 ^ 5 from rfl]
  exact Nat.testBit_two_pow

theorem testBit_lit6 (j : Nat) : Nat.testBit 64 j = decide (6 = j) := by
  rw [show (64 : Nat) = 2 ^ 6 from rfl]
  exact Nat.testBit_two_pow

theorem testBit_lit7 (j : Nat) : Nat.testBit 128 j = decide (7 = j) := by
  rw [show (128 : Nat) = 2 ^ 7 from rfl]
  exact Nat.testBit_two_pow

theorem testBit_lit8 (j : Nat) : Nat.testBit 256 j = decide (8 = j) := by
  rw [show (256 : Nat) = 2 ^ 8 from rfl]
  exact Nat.testBit_two_pow

theorem testBit_lit9 (j : Nat) : Nat.testBit 512 j = decide (9 = j) := by
  rw [show (512 : Nat) = 2 ^ 9 from rfl]
  exact Nat.testBit_two_pow

theorem testBit_lit10 (j : Nat) : Nat.testBit 1024 j = decide (10 = j) := by
  rw [show (1024 : Nat) = 2 ^ 10 from rfl]
  exact Nat.testBit_two_pow

theorem testBit_lit11 (j : Nat) : Nat.testBit 2048 j = decide (11 = j) := by
  rw [show (2048 : Nat) = 2 ^ 11 from rfl]
  exact Nat.testBit_two_pow

theorem testBit_lit12 (j : Nat) : Nat.testBit 4096 j = decide (12 = j) := by
  rw [show (4096 : Nat) = 2 ^ 12 from rfl]
  exact Nat.testBit_two_pow

theorem testBit_lit13 (j : Nat) : Nat.testBit 8192 j = decide (13 = j) := by
  rw [show (8192 : Nat) = 2 ^ 13 from rfl]
  exact Nat.testBit_two_pow

theorem testBit_lit14 (j : Nat) : Nat.testBit 16384 j = decide (14 = j) := by
  rw [show (16384 : Nat) = 2 ^ 14 from rfl]
  exact Nat.testBit_two_pow

theorem testBit_lit15 (j : Nat) : Nat.testBit 32768 j = decide (15 = j) := by
  rw [show (32768 : Nat) = 2 ^ 15 from rfl]
  exact Nat.testBit_two_pow

theorem testBit_lit16 (j : Nat) : Nat.testBit 65536 j = decide (16 = j) := by
  rw [show (65536 : Nat) = 2 ^ 16 from rfl]
  exact Nat.testBit_two_pow

theorem testBit_lit17 (j : Nat) : Nat.testBit 131072 j = decide (17 = j) := by
  rw [show (131072 : Nat) = 2 ^ 17 from rfl]
  exact Nat.testBit_two_pow

theorem ite_true_false (b : Bool) : (if b then true else false) = b := by
  cases b <;> rfl

set_option maxRecDepth 4096 in
/-- C7: deriving a `Channels` bit-by-bit from `channel_mask()` (exactly as
the extensible-header parser does) recovers the original 18 flags, and the
derived value has the same `count()`. -/
theorem c7_channel_mask_roundtrip (c : Channels) :
    channelsOfMask c.channel_mask = c ∧ (channelsOfMask c.channel_mask).count = c.count := by
  have h : channelsOfMask c.channel_mask = c := by
    obtain ⟨f1, f2, f3, f4, f5, f6, f7, f8, f9, f10, f11, f12, f13, f14, f15, f16, f17, f18⟩ := c
    unfold channelsOfMask Channels.channel_mask
    simp only [ite_lor_push, Nat.zero_or, Channels.mk.injEq]
    simp only [and_bit0, and_bit1, and_bit2, and_bit3, and_bit4, and_bit5, and_bit6, and_bit7, and_bit8, and_bit9, and_bit10, and_bit11, and_bit12, and_bit13, and_bit14, and_bit15, and_bit16, and_bit17]
    simp only [Nat.testBit_lor, testBit_ite_zero]
    simp only [testBit_lit0, testBit_lit1, testBit_lit2, testBit_lit3, testBit_lit4, testBit_lit5, testBit_lit6, testBit_lit7, testBit_lit8, testBit_lit9, testBit_lit10, testBit_lit11, testBit_lit12, testBit_lit13, testBit_lit14, testBit_lit15, testBit_lit16, testBit_lit17]
    simp
  exact ⟨h, by rw [h]⟩

/-- src/wave_header.rs `WavHeader` (with `max_samples` a public field, set
either by the user — as in the capacity tests — or from
`calculate_max_samples` when a header is parsed). -/
structure WavHeaderM where
  sample_format : SampleFormat
  channels : Channels
  sample_rate : Nat
  max_samples : Nat
deriving DecidableEq, Repr

/-- src/wave_header.rs `calculate_max_samples`:
`(u32::MAX - 32 + 8) / channels.count() / bytes_per_sample`.  In Rust a zero
channel count makes this `u32` division panic — that behaviour is modelled
explicitly in the header parser below; this `Nat` division is only used with
nonzero counts. -/
def calculate_max_samples (channels : Channels) (sample_format : SampleFormat) : Nat :=
  (4294967295 - 32 + 8) / channels.count / sample_format.bytes_per_sample

/-- The number of data bytes of one frame:
`num_channels() * bytes_per_sample()`. -/
def frame_size (h : WavHeaderM) : Nat :=
  h.channels.count * h.sample_format.bytes_per_sample

/-- src/wave_writer/mod.rs `OpenWavWriter`.  `data` is the byte content of
the stream after `data_start` (the 68-byte RIFF/fmt/data preamble is
reattached by `fileAfterFlush` below); `samples_written` is the running frame
counter. -/
structure OpenWavWriterM where
  header : WavHeaderM
  data : List Nat
  samples_written : Nat
deriving DecidableEq, Repr

/-- Overwrite `bs` into `data` starting at byte offset `pos` (the effect of
`seek(Start pos)` followed by sequential writes, for an in-bounds region). -/
def overwriteAt (data : List Nat) (pos : Nat) (bs : List Nat) : List Nat :=
  data.take pos ++ bs ++ data.drop (pos + bs.length)

/-- An explicitly recursive monadic map over `RResult` (used instead of the
generic `List.mapM` to keep proofs elementary). -/
def mapRR {α β : Type} (f : α → RResult β) : List α → RResult (List β)
  | [] => .ok []
  | a :: rest => do
    let b ← f a
    let bs ← mapRR f rest
    pure (b :: bs)

/-- The bytes the per-channel write loop of `write_samples`/`write_all`
emits for one frame: the present channels' values in canonical order
(`packChannels`), each serialized by the bound conversion
(`writeNativeSample`), concatenated. -/
def frameBytes (h : WavHeaderM) (samples_by_channel : SamplesByChannel Int) :
    RResult (List Nat) := do
  let vals ← packChannels h.channels.flagsList samples_by_channel.optsList
  let chunks ← mapRR (writeNativeSample h.sample_format) vals
  pure chunks.flatten

/-- src/wave_writer/random.rs `RandomAccessWavWriter::write_samples` (for the
native element type).  The capacity check against `header.max_samples` comes
first; then, if `sample >= samples_written`, the writer seeks to end of
stream and appends `(sample + 1 - samples_written) * frame_size` zero bytes
and sets the counter to `sample + 1`; finally it seeks to
`data_start + sample * num_channels * bytes_per_sample` (our `data` starts at
`data_start`, so the relative position drops `data_start`) and writes the
frame's channel values in canonical order. -/
def write_samples (w : OpenWavWriterM) (sample : Nat)
    (samples_by_channel : SamplesByChannel Int) : RResult OpenWavWriterM :=
  if sample ≥ w.header.max_samples then
    .err ⟨.Unsupported, "Wav files can only go up to 4GB."⟩
  else
    let padded :=
      if sample ≥ w.samples_written then
        { w with
          data := w.data ++
            List.replicate ((sample + 1 - w.samples_written) * frame_size w.header) 0,
          samples_written := sample + 1 }
      else w
    let position := sample * w.header.channels.count * w.header.sample_format.bytes_per_sample
    do
      let bytes ← frameBytes w.header samples_by_channel
      pure { padded with data := overwriteAt padded.data position bytes }

/-- src/wave_reader/mod.rs `OpenWavReader`: `data` is the byte content of the
stream from `data_start` on, `data_length` the declared size of the `data`
chunk. -/
structure OpenWavReaderM where
  header : WavHeaderM
  data : List Nat
  data_length : Nat
deriving DecidableEq, Repr

/-- src/wave_reader/mod.rs `OpenWav::len_samples` for a reader:
`data_length / bytes_per_sample / num_channels` (in Rust a zero channel count
panics; this is only used with nonzero counts, see the parser model). -/
def len_samples (r : OpenWavReaderM) : Nat :=
  r.data_length / r.header.sample_format.bytes_per_sample / r.header.channels.count

/-- `read_fixed_size`: `len` bytes at `pos`, or `UnexpectedEof` when the
stream is too short. -/
def readBytesAt (data : List Nat) (pos len : Nat) : RResult (List Nat) :=
  if pos + len ≤ data.length then
    .ok ((data.drop pos).take len)
  else
    .err ⟨.UnexpectedEof, "Unexpected end of file"⟩

/-- `count` consecutive samples of width `w` decoded by `dec`, starting at
byte `pos`: the sequence of reads the per-channel loop performs for the
present channels. -/
def readValsAt (dec : List Nat → Int) (w : Nat) (data : List Nat) :
    Nat → Nat → RResult (List Int)
  | _, 0 => .ok []
  | pos, Nat.succ k => do
    let bs ← readBytesAt data pos w
    let rest ← readValsAt dec w data (pos + w) k
    pure (dec bs :: rest)

/-- src/wave_reader/random.rs `RandomAccessWavReader::read_sample`,
parameterized by the bound element conversion `dec` (every read-side
conversion of the library is total once its bytes have been read).  Bounds
check against `len_samples`, seek to
`sample * num_channels * bytes_per_sample`, then one decoded value per
present channel in canonical order (`unpackChannels`). -/
def read_sample (r : OpenWavReaderM) (dec : List Nat → Int) (sample : Nat) :
    RResult (SamplesByChannel Int) :=
  if sample ≥ len_samples r then
    .err ⟨.UnexpectedEof, "Sample out of range"⟩
  else
    let position := sample * r.header.channels.count * r.header.sample_format.bytes_per_sample
    do
      let vals ← readValsAt dec r.header.sample_format.bytes_per_sample r.data position
        r.header.channels.count
      pure (samplesOfOptsList (unpackChannels r.header.channels.flagsList vals))

/-- The mono (front-center only) channel layout of the library's capacity
test. -/
def monoCenterChannels : Channels :=
  ⟨false, false, true, false, false, false, false, false, false, false, false, false,
   false, false, false, false, false, false⟩

/-- A well-formed frame for `monoCenterChannels` carrying value `v`. -/
def monoCenterFrame (v : Int) : SamplesByChannel Int :=
  ⟨none, none, some v, none, none, none, none, none, none, none, none, none,
   none, none, none, none, none, none⟩

/-- C4: `write_samples` at an index at or beyond `max_samples` fails with the
capacity error — the check is the first statement of the function, before any
padding, seeking or writing touches the stream or the counter; in particular,
with `max_samples = 1`, index 0 succeeds while indices 1 and 2 fail with that
error. -/
theorem c4_capacity_check :
    (∀ (w : OpenWavWriterM) (sample : Nat) (sbc : SamplesByChannel Int),
      w.header.max_samples ≤ sample →
      write_samples w sample sbc = .err ⟨.Unsupported, "Wav files can only go up to 4GB."⟩) ∧
    ((write_samples ⟨⟨.Int8, monoCenterChannels, 96000, 1⟩, [], 0⟩ 0
        (monoCenterFrame 1)).isOk = true) ∧
    (write_samples ⟨⟨.Int8, monoCenterChannels, 96000, 1⟩, [], 0⟩ 1 (monoCenterFrame 1) =
      .err ⟨.Unsupported, "Wav files can only go up to 4GB."⟩) ∧
    (write_samples ⟨⟨.Int8, monoCenterChannels, 96000, 1⟩, [], 0⟩ 2 (monoCenterFrame 1) =
      .err ⟨.Unsupported, "Wav files can only go up to 4GB."⟩) := by
  refine ⟨?_, by decide, by decide, by decide⟩
  intro w sample sbc h
  unfold write_samples
  rw [if_pos h]

/-- C4 witness: the capacity error at a concrete writer and index. -/
theorem c4_capacity_check_witness :
    write_samples ⟨⟨.Int8, monoCenterChannels, 96000, 1⟩, [], 0⟩ 7 (monoCenterFrame 1) =
      .err ⟨.Unsupported, "Wav files can only go up to 4GB."⟩ :=
  c4_capacity_check.1 ⟨⟨.Int8, monoCenterChannels, 96000, 1⟩, [], 0⟩ 7 (monoCenterFrame 1)
    (by decide)

theorem RResult.pure_eq {α : Type} (a : α) : (pure a : RResult α) = .ok a := rfl

theorem overwriteAt_append (pre : List Nat) (zk : Nat) (bytes : List Nat)
    (h : bytes.length ≤ zk) :
    overwriteAt (pre ++ List.replicate zk 0) (pre.length + (zk - bytes.length)) bytes =
      pre ++ List.replicate (zk - bytes.length) 0 ++ bytes := by
  unfold overwriteAt
  have hdrop : (pre ++ List.replicate zk 0).drop
      (pre.length + (zk - bytes.length) + bytes.length) = [] := by
    apply List.drop_of_length_le
    simp only [List.length_append, List.length_replicate]
    omega
  rw [hdrop, List.append_nil, List.take_append, List.take_replicate,
    Nat.min_eq_left (by omega), List.append_assoc]

theorem write_samples_eq (w : OpenWavWriterM) (sample : Nat)
    (sbc : SamplesByChannel Int) (bytes : List Nat)
    (hfb : frameBytes w.header sbc = .ok bytes)
    (hlen : w.data.length = w.samples_written * frame_size w.header)
    (hbytes : bytes.length = frame_size w.header)
    (hge : w.samples_written ≤ sample)
    (hlt : sample < w.header.max_samples) :
    write_samples w sample sbc = .ok
      { header := w.header,
        data := w.data ++
          List.replicate ((sample - w.samples_written) * frame_size w.header) 0 ++ bytes,
        samples_written := sample + 1 } := by
  obtain ⟨d, rfl⟩ : ∃ d, sample = w.samples_written + d := ⟨sample - w.samples_written, by omega⟩
  unfold write_samples
  rw [if_neg (by omega), if_pos (by omega), hfb, RResult.bind_ok, RResult.pure_eq,
    RResult.ok.injEq]
  have hp1 : w.samples_written + d + 1 - w.samples_written = d + 1 := by omega
  have hp2 : w.samples_written + d - w.samples_written = d := by omega
  rw [hp1, hp2]
  have hcw : w.header.channels.count * w.header.sample_format.bytes_per_sample =
      frame_size w.header := rfl
  have hpos : (w.samples_written + d) * w.header.channels.count *
      w.header.sample_format.bytes_per_sample =
      w.data.length + ((d + 1) * frame_size w.header - bytes.length) := by
    rw [hlen, hbytes, Nat.mul_assoc, hcw]
    have h1 : (w.samples_written + d) * frame_size w.header =
        w.samples_written * frame_size w.header + d * frame_size w.header := Nat.add_mul _ _ _
    have h2 : (d + 1) * frame_size w.header =
        d * frame_size w.header + 1 * frame_size w.header := Nat.add_mul _ _ _
    omega
  rw [hpos, overwriteAt_append _ _ _ (by rw [hbytes]; exact Nat.le_mul_of_pos_left _ (by omega))]
  rw [hbytes]
  have h2 : (d + 1) * frame_size w.header - frame_size w.header = d * frame_size w.header := by
    rw [Nat.add_mul]
    omega
  rw [h2]

theorem write_samples_counter (w : OpenWavWriterM) (sample : Nat)
    (sbc : SamplesByChannel Int) (w2 : OpenWavWriterM)
    (h : write_samples w sample sbc = .ok w2) :
    w2.samples_written = max w.samples_written (sample + 1) ∧ w2.header = w.header := by
  unfold write_samples at h
  split at h
  · exact RResult.noConfusion h
  · rename_i hcap
    cases hfb : frameBytes w.header sbc with
    | err e =>
      simp only [hfb, RResult.bind_err] at h
      exact RResult.noConfusion h
    | ok bytes =>
      simp only [hfb, RResult.bind_ok, RResult.pure_eq, RResult.ok.injEq] at h
      subst h
      by_cases hge : w.samples_written ≤ sample
      · rw [if_pos hge]
        refine ⟨?_, rfl⟩
        show sample + 1 = _
        omega
      · rw [if_neg hge]
        refine ⟨?_, rfl⟩
        show w.samples_written = _
        omega

theorem readBytesAt_zero_region (pre : List Nat) (m : Nat) (post : List Nat)
    (pos len : Nat) (h1 : pre.length ≤ pos) (h2 : pos + len ≤ pre.length + m) :
    readBytesAt (pre ++ List.replicate m 0 ++ post) pos len = .ok (List.replicate len 0) := by
  unfold readBytesAt
  rw [if_pos (by simp only [List.length_append, List.length_replicate]; omega)]
  rw [RResult.ok.injEq]
  rw [List.append_assoc, List.drop_append_eq_append_drop,
    List.drop_of_length_le h1, List.nil_append,
    List.drop_append_eq_append_drop, List.drop_replicate,
    List.take_append_eq_append_take, List.take_replicate, List.length_replicate]
  have e1 : min len (m - (pos - pre.length)) = len := by omega
  have e2 : len - (m - (pos - pre.length)) = 0 := by omega
  rw [e1, e2, List.take_zero, List.append_nil]

theorem readValsAt_zero_region (dec : List Nat → Int) (wdt : Nat)
    (hdec : dec (List.replicate wdt 0) = 0) (pre : List Nat) (m : Nat) (post : List Nat) :
    ∀ (k pos : Nat), pre.length ≤ pos → pos + k * wdt ≤ pre.length + m →
    readValsAt dec wdt (pre ++ List.replicate m 0 ++ post) pos k =
      .ok (List.replicate k 0) := by
  intro k
  induction k with
  | zero => intro pos _ _; rfl
  | succ k ih =>
    intro pos h1 h2
    have hw : wdt ≤ (k + 1) * wdt := by
      calc wdt = 1 * wdt := by omega
      _ ≤ (k + 1) * wdt := Nat.mul_le_mul_right _ (by omega)
    unfold readValsAt
    rw [readBytesAt_zero_region pre m post pos wdt h1 (by omega), RResult.bind_ok,
      ih (pos + wdt) (by omega) (by rw [Nat.add_mul] at h2; omega), RResult.bind_ok,
      RResult.pure_eq, hdec]
    rfl

theorem readNativeSample_zero (fmt : SampleFormat) :
    readNativeSample fmt (List.replicate fmt.bytes_per_sample 0) = 0 := by
  cases fmt <;> decide

theorem bytes_per_sample_pos (fmt : SampleFormat) : 1 ≤ fmt.bytes_per_sample := by
  cases fmt <;> decide

theorem frame_div (N c bps : Nat) (hb : 1 ≤ bps) (hc : 1 ≤ c) :
    N * (c * bps) / bps / c = N := by
  rw [show N * (c * bps) = N * c * bps from by ring,
    Nat.mul_div_cancel _ (by omega), Nat.mul_div_cancel _ (by omega)]

/-- C5: a successful `write_samples` at `index >= samples_written` appends
`(index + 1 - samples_written)` frames of zero bytes at end of stream, sets
the counter to `index + 1`, and overwrites the last appended frame with the
frame's bytes — so the net stream is the old data, `(index - samples_written)`
zero frames, then the written frame; after any successful write the counter
equals `max(samples_written, index + 1)`; and every frame index in the padded
gap reads back as an all-zero frame. -/
theorem c5_sparse_write_padding (w : OpenWavWriterM) (sample : Nat)
    (sbc : SamplesByChannel Int) (bytes : List Nat)
    (hfb : frameBytes w.header sbc = .ok bytes)
    (hlen : w.data.length = w.samples_written * frame_size w.header)
    (hbytes : bytes.length = frame_size w.header)
    (hge : w.samples_written ≤ sample)
    (hlt : sample < w.header.max_samples)
    (hc : 1 ≤ w.header.channels.count) :
    write_samples w sample sbc = .ok
      { header := w.header,
        data := w.data ++
          List.replicate ((sample - w.samples_written) * frame_size w.header) 0 ++ bytes,
        samples_written := sample + 1 } ∧
    (∀ (w2 : OpenWavWriterM) (sample2 : Nat) (sbc2 : SamplesByChannel Int)
        (w3 : OpenWavWriterM), write_samples w2 sample2 sbc2 = .ok w3 →
      w3.samples_written = max w2.samples_written (sample2 + 1)) ∧
    (∀ i, w.samples_written ≤ i → i < sample →
      read_sample
        { header := w.header,
          data := w.data ++
            List.replicate ((sample - w.samples_written) * frame_size w.header) 0 ++ bytes,
          data_length := (sample + 1) * frame_size w.header }
        (readNativeSample w.header.sample_format) i =
        .ok (samplesOfOptsList (unpackChannels w.header.channels.flagsList
          (List.replicate w.header.channels.count 0)))) := by
  refine ⟨write_samples_eq w sample sbc bytes hfb hlen hbytes hge hlt,
    fun w2 sample2 sbc2 w3 h => (write_samples_counter w2 sample2 sbc2 w3 h).1, ?_⟩
  intro i hi1 hi2
  unfold read_sample
  have hlensamp : len_samples
      { header := w.header,
        data := w.data ++
          List.replicate ((sample - w.samples_written) * frame_size w.header) 0 ++ bytes,
        data_length := (sample + 1) * frame_size w.header } = sample + 1 := by
    unfold len_samples frame_size
    exact frame_div _ _ _ (bytes_per_sample_pos _) hc
  rw [if_neg (by omega)]
  show (do
      let vals ← readValsAt (readNativeSample w.header.sample_format)
        w.header.sample_format.bytes_per_sample
        (w.data ++ List.replicate ((sample - w.samples_written) * frame_size w.header) 0 ++ bytes)
        (i * w.header.channels.count * w.header.sample_format.bytes_per_sample)
        w.header.channels.count
      pure (samplesOfOptsList (unpackChannels w.header.channels.flagsList vals))) = _
  have hpos : i * w.header.channels.count * w.header.sample_format.bytes_per_sample =
      i * frame_size w.header := by
    unfold frame_size
    rw [Nat.mul_assoc]
  rw [hpos]
  have hmul1 : w.samples_written * frame_size w.header ≤ i * frame_size w.header :=
    Nat.mul_le_mul_right _ hi1
  have hmul2 : (i + 1) * frame_size w.header ≤ sample * frame_size w.header :=
    Nat.mul_le_mul_right _ (by omega)
  have hcw : w.header.channels.count * w.header.sample_format.bytes_per_sample =
      frame_size w.header := rfl
  rw [readValsAt_zero_region (readNativeSample w.header.sample_format) _
    (readNativeSample_zero _) w.data _ bytes _ _ (by omega)
    (by
      rw [hcw, hlen]
      have := Nat.add_mul i 1 (frame_size w.header)
      have hsub : w.samples_written * frame_size w.header +
          (sample - w.samples_written) * frame_size w.header = sample * frame_size w.header := by
        rw [← Nat.add_mul]
        congr 1
        omega
      omega), RResult.bind_ok, RResult.pure_eq]

/-- C5 witness: a fresh mono 8-bit writer, writing index 5 first; indices 0-4
then read back as zero. -/
theorem c5_sparse_write_padding_witness :
    (write_samples ⟨⟨.Int8, monoCenterChannels, 96000, 100⟩, [], 0⟩ 5 (monoCenterFrame 3) = .ok
      { header := ⟨.Int8, monoCenterChannels, 96000, 100⟩,
        data := [] ++ List.replicate ((5 - 0) * frame_size ⟨.Int8, monoCenterChannels, 96000, 100⟩) 0 ++ [3],
        samples_written := 5 + 1 }) ∧
    (∀ (w2 : OpenWavWriterM) (sample2 : Nat) (sbc2 : SamplesByChannel Int)
        (w3 : OpenWavWriterM), write_samples w2 sample2 sbc2 = .ok w3 →
      w3.samples_written = max w2.samples_written (sample2 + 1)) ∧
    (∀ i, 0 ≤ i → i < 5 →
      read_sample
        { header := ⟨.Int8, monoCenterChannels, 96000, 100⟩,
          data := [] ++ List.replicate ((5 - 0) * frame_size ⟨.Int8, monoCenterChannels, 96000, 100⟩) 0 ++ [3],
          data_length := (5 + 1) * frame_size ⟨.Int8, monoCenterChannels, 96000, 100⟩ }
        (readNativeSample .Int8) i =
        .ok (samplesOfOptsList (unpackChannels monoCenterChannels.flagsList
          (List.replicate (Channels.count monoCenterChannels) 0)))) :=
  c5_sparse_write_padding ⟨⟨.Int8, monoCenterChannels, 96000, 100⟩, [], 0⟩ 5
    (monoCenterFrame 3) [3] (by decide) (by decide) (by decide) (by decide) (by decide)
    (by decide)

/-- Sequential writing of a list of frames at indices 0, 1, 2, …: the pattern
of `OpenWavWriter::write_all` (whose per-frame capacity check and per-channel
writes coincide with `write_samples` at `index = samples_written`, since
`OpenWavWriter::new` takes the writer's `max_samples` from the header) and of
the library's own round-trip tests. -/
def write_all_seq (w : OpenWavWriterM) : List (SamplesByChannel Int) → RResult OpenWavWriterM
  | [] => .ok w
  | f :: fs => do
    let w2 ← write_samples w w.samples_written f
    write_all_seq w2 fs

theorem packChannels_mem {α : Type} (flags : List Bool) :
    ∀ (opts : List (Option α)) (vals : List α),
    packChannels flags opts = .ok vals → ∀ v ∈ vals, (some v) ∈ opts := by
  induction flags with
  | nil =>
    intro opts vals h v hv
    unfold packChannels at h
    cases h
    simp at hv
  | cons b flags ih =>
    intro opts vals h v hv
    cases opts with
    | nil =>
      unfold packChannels at h
      cases flags <;> exact RResult.noConfusion h
    | cons o opts =>
      cases o with
      | none =>
        unfold packChannels at h
        split at h
        · exact RResult.noConfusion h
        · exact List.mem_cons_of_mem _ (ih opts vals h v hv)
      | some v0 =>
        unfold packChannels at h
        split at h
        · have h2 : (do
              let rest ← packChannels flags opts
              pure (v0 :: rest)) = RResult.ok vals := h
          cases hp : packChannels flags opts with
          | err e =>
            rw [hp, RResult.bind_err] at h2
            exact RResult.noConfusion h2
          | ok rest =>
            rw [hp, RResult.bind_ok, RResult.pure_eq, RResult.ok.injEq] at h2
            subst h2
            rcases List.mem_cons.mp hv with rfl | hv2
            · exact List.mem_cons_self _ _
            · exact List.mem_cons_of_mem _ (ih opts rest hp v hv2)
        · exact List.mem_cons_of_mem _ (ih opts vals h v hv)

theorem mapRR_forall₂ {α β : Type} (f : α → RResult β) :
    ∀ (l : List α) (bs : List β), mapRR f l = .ok bs →
      List.Forall₂ (fun a b => f a = .ok b) l bs := by
  intro l
  induction l with
  | nil =>
    intro bs h
    cases h
    exact List.Forall₂.nil
  | cons a rest ih =>
    intro bs h
    unfold mapRR at h
    cases hb : f a with
    | err e =>
      rw [hb, RResult.bind_err] at h
      exact RResult.noConfusion h
    | ok b =>
      rw [hb, RResult.bind_ok] at h
      cases hrest : mapRR f rest with
      | err e =>
        rw [hrest, RResult.bind_err] at h
        exact RResult.noConfusion h
      | ok brest =>
        rw [hrest, RResult.bind_ok, RResult.pure_eq, RResult.ok.injEq] at h
        subst h
        exact List.Forall₂.cons hb (ih brest hrest)

theorem mapRR_ok_of_forall {α β : Type} (f : α → RResult β) :
    ∀ (l : List α), (∀ a ∈ l, ∃ b, f a = .ok b) →
      ∃ bs, mapRR f l = .ok bs := by
  intro l
  induction l with
  | nil => exact fun _ => ⟨[], rfl⟩
  | cons a rest ih =>
    intro h
    obtain ⟨b, hb⟩ := h a (List.mem_cons_self _ _)
    obtain ⟨bs, hbs⟩ := ih (fun x hx => h x (List.mem_cons_of_mem _ hx))
    refine ⟨b :: bs, ?_⟩
    unfold mapRR
    rw [hb, RResult.bind_ok, hbs, RResult.bind_ok, RResult.pure_eq]

theorem mapRR_props {α β : Type} (f : α → RResult β) (P : β → Prop)
    (hP : ∀ a b, f a = .ok b → P b) :
    ∀ (l : List α) (bs : List β), mapRR f l = .ok bs → ∀ b ∈ bs, P b := by
  intro l bs h
  have hF := mapRR_forall₂ f l bs h
  clear h
  induction hF with
  | nil =>
    intro b hb
    simp at hb
  | cons hab htail ih =>
    intro b hb
    rcases List.mem_cons.mp hb with rfl | hb2
    · exact hP _ _ hab
    · exact ih b hb2

theorem flatten_length_uniform (L : Nat) :
    ∀ (chunks : List (List Nat)), (∀ c ∈ chunks, c.length = L) →
      chunks.flatten.length = chunks.length * L := by
  intro chunks
  induction chunks with
  | nil => intro _; simp
  | cons c rest ih =>
    intro h
    simp only [List.flatten_cons, List.length_append, List.length_cons,
      ih (fun x hx => h x (List.mem_cons_of_mem _ hx)), h c (List.mem_cons_self _ _)]
    have := Nat.add_mul rest.length 1 L
    omega

theorem flatten_slice_uniform (L : Nat) :
    ∀ (chunks : List (List Nat)) (k : Nat) (hk : k < chunks.length),
      (∀ c ∈ chunks, c.length = L) →
      ((chunks.flatten.drop (k * L)).take L) = chunks.get ⟨k, hk⟩ := by
  intro chunks
  induction chunks with
  | nil => intro k hk; simp at hk
  | cons c rest ih =>
    intro k hk h
    cases k with
    | zero =>
      simp only [List.flatten_cons, Nat.zero_mul, List.drop_zero, List.get]
      exact List.take_left' (h c (List.mem_cons_self _ _))
    | succ k =>
      have hc : c.length = L := h c (List.mem_cons_self _ _)
      simp only [List.flatten_cons, List.get]
      rw [List.drop_append_eq_append_drop,
        List.drop_of_length_le (by rw [hc]; exact Nat.le_mul_of_pos_left _ (Nat.succ_pos k)),
        List.nil_append, hc]
      have he : (k + 1) * L - L = k * L := by
        have := Nat.add_mul k 1 L
        omega
      rw [he]
      exact ih k (by simpa using hk) (fun x hx => h x (List.mem_cons_of_mem _ hx))

theorem slice_slice (data : List Nat) (p L q wdt : Nat) (h : q + wdt ≤ L) :
    ((data.drop (p + q)).take wdt) = ((((data.drop p).take L).drop q).take wdt) := by
  rw [List.drop_take, List.take_take, List.drop_drop, Nat.min_eq_left (by omega)]

/-- The pure value of the sequence of `k` in-bounds reads `readValsAt`
performs: the decoded `wdt`-byte slices at `pos`, `pos + wdt`, …. -/
def decodeRange (dec : List Nat → Int) (wdt : Nat) (data : List Nat) :
    Nat → Nat → List Int
  | _, 0 => []
  | pos, Nat.succ k => dec ((data.drop pos).take wdt) :: decodeRange dec wdt data (pos + wdt) k

theorem readValsAt_ok (dec : List Nat → Int) (wdt : Nat) (data : List Nat) :
    ∀ (k pos : Nat), pos + k * wdt ≤ data.length →
      readValsAt dec wdt data pos k = .ok (decodeRange dec wdt data pos k) := by
  intro k
  induction k with
  | zero => intro pos _; rfl
  | succ k ih =>
    intro pos h
    have hk1 : (k + 1) * wdt = k * wdt + wdt := by
      have := Nat.add_mul k 1 wdt
      omega
    unfold readValsAt
    rw [show readBytesAt data pos wdt = .ok ((data.drop pos).take wdt) from by
        unfold readBytesAt
        rw [if_pos (by omega)],
      RResult.bind_ok, ih (pos + wdt) (by omega), RResult.bind_ok, RResult.pure_eq]
    rfl

theorem decodeRange_eq (dec : List Nat → Int) (wdt : Nat) (data : List Nat) :
    ∀ (vals : List Int) (pos : Nat),
      (∀ j (hj : j < vals.length),
        dec ((data.drop (pos + j * wdt)).take wdt) = vals.get ⟨j, hj⟩) →
      decodeRange dec wdt data pos vals.length = vals := by
  intro vals
  induction vals with
  | nil => intro pos _; rfl
  | cons v rest ih =>
    intro pos h
    show dec ((data.drop pos).take wdt) :: decodeRange dec wdt data (pos + wdt) rest.length =
      v :: rest
    have h0 := h 0 (Nat.succ_pos _)
    simp only [Nat.zero_mul, Nat.add_zero] at h0
    rw [h0]
    congr 1
    apply ih
    intro j hj
    have hjj := h (j + 1) (by simpa using Nat.succ_lt_succ hj)
    have he : pos + (j + 1) * wdt = pos + wdt + j * wdt := by
      have := Nat.add_mul j 1 wdt
      omega
    rw [he] at hjj
    exact hjj

theorem packChannels_length {α : Type} :
    ∀ (flags : List Bool) (opts : List (Option α)) (vals : List α),
      packChannels flags opts = .ok vals → vals.length = countTrue flags := by
  intro flags
  induction flags with
  | nil =>
    intro opts vals h
    cases h
    rfl
  | cons b flags ih =>
    intro opts vals h
    cases opts with
    | nil =>
      unfold packChannels at h
      cases flags <;> exact RResult.noConfusion h
    | cons o opts =>
      cases o with
      | none =>
        unfold packChannels at h
        split at h
        · exact RResult.noConfusion h
        · rename_i hb
          simp only [countTrue, if_neg hb, Nat.zero_add]
          exact ih opts vals h
      | some v0 =>
        unfold packChannels at h
        split at h
        · rename_i hb
          have h2 : (do
              let rest ← packChannels flags opts
              pure (v0 :: rest)) = RResult.ok vals := h
          cases hp : packChannels flags opts with
          | err e =>
            rw [hp, RResult.bind_err] at h2
            exact RResult.noConfusion h2
          | ok rest =>
            rw [hp, RResult.bind_ok, RResult.pure_eq, RResult.ok.injEq] at h2
            subst h2
            simp only [countTrue, if_pos hb, List.length_cons, ih opts rest hp]
            omega
        · rename_i hb
          simp only [countTrue, if_neg hb, Nat.zero_add]
          exact ih opts vals h

theorem frameBytes_parts (hd : WavHeaderM) (f : SamplesByChannel Int) (bs : List Nat)
    (hfb : frameBytes hd f = .ok bs) :
    ∃ vals chunks,
      packChannels hd.channels.flagsList f.optsList = .ok vals ∧
      mapRR (writeNativeSample hd.sample_format) vals = .ok chunks ∧
      bs = chunks.flatten ∧
      vals.length = countTrue hd.channels.flagsList ∧
      chunks.length = vals.length ∧
      (∀ c ∈ chunks, c.length = hd.sample_format.bytes_per_sample) ∧
      List.Forall₂ (fun v cc => writeNativeSample hd.sample_format v = .ok cc) vals chunks := by
  unfold frameBytes at hfb
  cases hp : packChannels hd.channels.flagsList f.optsList with
  | err e =>
    rw [hp, RResult.bind_err] at hfb
    exact RResult.noConfusion hfb
  | ok vals =>
    rw [hp, RResult.bind_ok] at hfb
    cases hm : mapRR (writeNativeSample hd.sample_format) vals with
    | err e =>
      rw [hm, RResult.bind_err] at hfb
      exact RResult.noConfusion hfb
    | ok chunks =>
      rw [hm, RResult.bind_ok, RResult.pure_eq, RResult.ok.injEq] at hfb
      refine ⟨vals, chunks, rfl, hm, hfb.symm, ?_, ?_, ?_, ?_⟩
      · exact packChannels_length _ _ _ hp
      · exact (mapRR_forall₂ _ _ _ hm).length_eq.symm
      · exact mapRR_props _ _ (fun v cc hw => writeNativeSample_length _ v cc hw) _ _ hm
      · exact mapRR_forall₂ _ _ _ hm

theorem frameBytes_length (hd : WavHeaderM) (f : SamplesByChannel Int) (bs : List Nat)
    (hfb : frameBytes hd f = .ok bs) : bs.length = frame_size hd := by
  obtain ⟨vals, chunks, _, _, rfl, hvl, hcl, hclen, _⟩ := frameBytes_parts hd f bs hfb
  rw [flatten_length_uniform _ chunks hclen, hcl, hvl, ← Channels.count_eq_countTrue]
  rfl

theorem write_all_seq_invariant :
    ∀ (frames : List (SamplesByChannel Int)) (w : OpenWavWriterM) (bss : List (List Nat)),
      mapRR (frameBytes w.header) frames = .ok bss →
      w.data.length = w.samples_written * frame_size w.header →
      w.samples_written + frames.length ≤ w.header.max_samples →
      ∃ w2, write_all_seq w frames = .ok w2 ∧ w2.header = w.header ∧
        w2.samples_written = w.samples_written + frames.length ∧
        w2.data = w.data ++ bss.flatten := by
  intro frames
  induction frames with
  | nil =>
    intro w bss hmap hlen hcap
    cases hmap
    exact ⟨w, rfl, rfl, rfl, by simp⟩
  | cons f fs ih =>
    intro w bss hmap hlen hcap
    unfold mapRR at hmap
    cases hfb : frameBytes w.header f with
    | err e =>
      rw [hfb, RResult.bind_err] at hmap
      exact RResult.noConfusion hmap
    | ok b0 =>
      rw [hfb, RResult.bind_ok] at hmap
      cases hrest : mapRR (frameBytes w.header) fs with
      | err e =>
        rw [hrest, RResult.bind_err] at hmap
        exact RResult.noConfusion hmap
      | ok brest =>
        rw [hrest, RResult.bind_ok, RResult.pure_eq, RResult.ok.injEq] at hmap
        subst hmap
        have hb0len : b0.length = frame_size w.header := frameBytes_length _ _ _ hfb
        have hstep := write_samples_eq w w.samples_written f b0 hfb hlen hb0len
          (Nat.le_refl _) (by simp only [List.length_cons] at hcap; omega)
        rw [Nat.sub_self, Nat.zero_mul, List.replicate_zero, List.append_nil] at hstep
        have hstepdata : (w.data ++ b0).length = (w.samples_written + 1) * frame_size w.header := by
          rw [List.length_append, hlen, hb0len, Nat.add_mul]
          omega
        obtain ⟨w3, h3, hh3, hs3, hd3⟩ := ih
          { header := w.header, data := w.data ++ b0, samples_written := w.samples_written + 1 }
          brest hrest hstepdata (by simp only [List.length_cons] at hcap; simpa using by omega)
        refine ⟨w3, ?_, hh3, ?_, ?_⟩
        · show (do
            let w2 ← write_samples w w.samples_written f
            write_all_seq w2 fs) = .ok w3
          rw [hstep, RResult.bind_ok]
          exact h3
        · rw [hs3]
          simp only [List.length_cons]
          omega
        · rw [hd3]
          simp [List.append_assoc]

set_option maxHeartbeats 1000000 in
/-- C1: for every sample format, channel layout and finite frame sequence
(well-formed and in the format's native range), writing the frames
sequentially (`write_samples` at successive indices — the pattern of
`write_all`), flushing, and reading every index back with the reader of the
same (native) element type over the produced bytes returns exactly the
per-channel values written: exact equality for the integer formats, exact bit
pattern for `Float` (a float sample is modelled by its 32-bit pattern, which
the library moves verbatim). -/
theorem c1_native_roundtrip
    (fmt : SampleFormat) (ch : Channels) (rate : Nat)
    (frames : List (SamplesByChannel Int))
    (hc : 1 ≤ ch.count)
    (hwf : ∀ f ∈ frames, wellFormedFrame ch f)
    (hv : ∀ f ∈ frames, ∀ o ∈ f.optsList, ∀ v, o = some v → validSample fmt v)
    (hcap : frames.length ≤ calculate_max_samples ch fmt) :
    ∃ w2, write_all_seq ⟨⟨fmt, ch, rate, calculate_max_samples ch fmt⟩, [], 0⟩ frames = .ok w2 ∧
      ∀ i (hi : i < frames.length),
        read_sample ⟨w2.header, w2.data, w2.data.length⟩ (readNativeSample fmt) i =
          .ok (frames.get ⟨i, hi⟩) := by
  have hbp : 1 ≤ fmt.bytes_per_sample := bytes_per_sample_pos fmt
  have hfbs : ∀ f ∈ frames,
      ∃ bs, frameBytes ⟨fmt, ch, rate, calculate_max_samples ch fmt⟩ f = .ok bs := by
    intro f hf
    obtain ⟨vals, hp, hlenv, hunp⟩ := packChannels_wf ch.flagsList f.optsList (hwf f hf)
    obtain ⟨chunks, hm⟩ := mapRR_ok_of_forall (writeNativeSample fmt) vals (fun v hvv => by
      have hmem := packChannels_mem _ _ _ hp v hvv
      have hval := hv f hf (some v) hmem v rfl
      obtain ⟨bs2, hw, _⟩ := readNative_writeNative fmt v hval
      exact ⟨bs2, hw⟩)
    refine ⟨chunks.flatten, ?_⟩
    show (do
      let vals2 ← packChannels ch.flagsList f.optsList
      let chunks2 ← mapRR (writeNativeSample fmt) vals2
      pure chunks2.flatten) = RResult.ok chunks.flatten
    rw [hp, RResult.bind_ok, hm, RResult.bind_ok, RResult.pure_eq]
  obtain ⟨bss, hmap⟩ := mapRR_ok_of_forall _ frames hfbs
  obtain ⟨w2, hwrite, hh2, hs2, hd2⟩ := write_all_seq_invariant frames
    ⟨⟨fmt, ch, rate, calculate_max_samples ch fmt⟩, [], 0⟩ bss hmap (by simp)
    (by simpa using hcap)
  rw [List.nil_append] at hd2
  refine ⟨w2, hwrite, ?_⟩
  intro i hi
  have hF := mapRR_forall₂ _ frames bss hmap
  have hlbss : bss.length = frames.length := hF.length_eq.symm
  have hlens0 := mapRR_props (frameBytes ⟨fmt, ch, rate, calculate_max_samples ch fmt⟩)
    (fun bs => bs.length = frame_size ⟨fmt, ch, rate, calculate_max_samples ch fmt⟩)
    (fun f bs hfb => frameBytes_length _ f bs hfb) frames bss hmap
  have hlens : ∀ bs ∈ bss, bs.length = ch.count * fmt.bytes_per_sample := hlens0
  have hi2 : i < bss.length := by omega
  have hfbi : frameBytes ⟨fmt, ch, rate, calculate_max_samples ch fmt⟩ (frames.get ⟨i, hi⟩) =
      .ok (bss.get ⟨i, hi2⟩) := hF.get hi hi2
  obtain ⟨vals, chunks, hp, hm, hbseq, hvl, hcl, hclen0, hFwc⟩ := frameBytes_parts _ _ _ hfbi
  have hclen : ∀ c ∈ chunks, c.length = fmt.bytes_per_sample := hclen0
  have hcount : countTrue ch.flagsList = ch.count := (Channels.count_eq_countTrue ch).symm
  have hvl2 : vals.length = ch.count := by
    rw [show vals.length = countTrue ch.flagsList from hvl]
    exact hcount
  have hcl2 : chunks.length = ch.count := by
    rw [hcl]
    exact hvl2
  obtain ⟨vals0, hp0, hlenv0, hunp0⟩ := packChannels_wf ch.flagsList
    (frames.get ⟨i, hi⟩).optsList (hwf _ (List.get_mem _ _ _))
  have hvalseq : vals = vals0 := by
    have h12 : RResult.ok vals = RResult.ok vals0 := (Eq.symm hp).trans hp0
    exact (RResult.ok.injEq _ _).mp h12
  have hdata_len : w2.data.length = frames.length * (ch.count * fmt.bytes_per_sample) := by
    rw [hd2, flatten_length_uniform _ bss hlens, hlbss]
  have hh2b : w2.header = ⟨fmt, ch, rate, calculate_max_samples ch fmt⟩ := hh2
  rw [hh2b]
  have hls : len_samples ⟨⟨fmt, ch, rate, calculate_max_samples ch fmt⟩, w2.data,
      w2.data.length⟩ = frames.length := by
    show w2.data.length / fmt.bytes_per_sample / ch.count = frames.length
    rw [hdata_len]
    exact frame_div _ _ _ hbp hc
  unfold read_sample
  rw [if_neg (by omega)]
  show (do
      let vals2 ← readValsAt (readNativeSample fmt) fmt.bytes_per_sample w2.data
        (i * ch.count * fmt.bytes_per_sample) ch.count
      pure (samplesOfOptsList (unpackChannels ch.flagsList vals2))) = _
  have hpos : i * ch.count * fmt.bytes_per_sample = i * (ch.count * fmt.bytes_per_sample) :=
    Nat.mul_assoc _ _ _
  rw [hpos]
  have hread := readValsAt_ok (readNativeSample fmt) fmt.bytes_per_sample w2.data ch.count
    (i * (ch.count * fmt.bytes_per_sample)) (by
      rw [hdata_len]
      have h1 : (i + 1) * (ch.count * fmt.bytes_per_sample) ≤
          frames.length * (ch.count * fmt.bytes_per_sample) :=
        Nat.mul_le_mul_right _ (by omega)
      have h2 : (i + 1) * (ch.count * fmt.bytes_per_sample) =
          i * (ch.count * fmt.bytes_per_sample) + 1 * (ch.count * fmt.bytes_per_sample) :=
        Nat.add_mul _ _ _
      have h3 : 1 * (ch.count * fmt.bytes_per_sample) = ch.count * fmt.bytes_per_sample :=
        Nat.one_mul _
      omega)
  rw [hread, RResult.bind_ok, RResult.pure_eq]
  have hdec : decodeRange (readNativeSample fmt) fmt.bytes_per_sample w2.data
      (i * (ch.count * fmt.bytes_per_sample)) ch.count = vals := by
    have hpt : ∀ j (hj : j < vals.length),
        readNativeSample fmt ((w2.data.drop (i * (ch.count * fmt.bytes_per_sample) +
          j * fmt.bytes_per_sample)).take fmt.bytes_per_sample) = vals.get ⟨j, hj⟩ := by
      intro j hj
      have hjc : j < ch.count := by omega
      have hjchunks : j < chunks.length := by omega
      have hslice1 : ((w2.data.drop
          (i * (ch.count * fmt.bytes_per_sample) + j * fmt.bytes_per_sample)).take
            fmt.bytes_per_sample) =
          ((((w2.data.drop (i * (ch.count * fmt.bytes_per_sample))).take
            (ch.count * fmt.bytes_per_sample)).drop (j * fmt.bytes_per_sample)).take
              fmt.bytes_per_sample) := by
        apply slice_slice
        have h1 := Nat.add_mul j 1 fmt.bytes_per_sample
        have h2 : (j + 1) * fmt.bytes_per_sample ≤ ch.count * fmt.bytes_per_sample :=
          Nat.mul_le_mul_right _ (by omega)
        have h3 : 1 * fmt.bytes_per_sample = fmt.bytes_per_sample := Nat.one_mul _
        omega
      have hslice2 : (w2.data.drop (i * (ch.count * fmt.bytes_per_sample))).take
          (ch.count * fmt.bytes_per_sample) = bss.get ⟨i, hi2⟩ := by
        rw [hd2]
        exact flatten_slice_uniform (ch.count * fmt.bytes_per_sample) bss i hi2 hlens
      have hslice3 : ((bss.get ⟨i, hi2⟩).drop (j * fmt.bytes_per_sample)).take
          fmt.bytes_per_sample = chunks.get ⟨j, hjchunks⟩ := by
        rw [hbseq]
        exact flatten_slice_uniform fmt.bytes_per_sample chunks j hjchunks hclen
      have hwj : writeNativeSample fmt (vals.get ⟨j, hj⟩) = .ok (chunks.get ⟨j, hjchunks⟩) :=
        hFwc.get hj hjchunks
      have hvalj : validSample fmt (vals.get ⟨j, hj⟩) := by
        have hmem := packChannels_mem _ _ _ hp (vals.get ⟨j, hj⟩) (List.get_mem _ _ _)
        exact hv _ (List.get_mem _ _ _) _ hmem _ rfl
      obtain ⟨bs2, hw2x, hr2⟩ := readNative_writeNative fmt _ hvalj
      have hbs2 : bs2 = chunks.get ⟨j, hjchunks⟩ := by
        have h12 : RResult.ok bs2 = RResult.ok (chunks.get ⟨j, hjchunks⟩) :=
          (Eq.symm hw2x).trans hwj
        exact (RResult.ok.injEq _ _).mp h12
      rw [hslice1, hslice2, hslice3, ← hbs2]
      exact hr2
    have hmain := decodeRange_eq (readNativeSample fmt) fmt.bytes_per_sample w2.data vals
      (i * (ch.count * fmt.bytes_per_sample)) hpt
    rw [hvl2] at hmain
    exact hmain
  rw [hdec]
  have hunp2 : unpackChannels ch.flagsList vals = (frames.get ⟨i, hi⟩).optsList := by
    rw [hvalseq]
    exact hunp0
  rw [hunp2, samplesOfOptsList_optsList]

theorem monoCenterFrame_wf (v : Int) :
    wellFormedFrame monoCenterChannels (monoCenterFrame v) :=
  .cons rfl <| .cons rfl <| .cons rfl <| .cons rfl <| .cons rfl <| .cons rfl <| .cons rfl <| .cons rfl <| .cons rfl <| .cons rfl <| .cons rfl <| .cons rfl <| .cons rfl <| .cons rfl <| .cons rfl <| .cons rfl <| .cons rfl <| .cons rfl <| .nil

/-- C1 witness: a concrete two-frame mono 8-bit sequence round-trips. -/
theorem c1_native_roundtrip_witness :
    ∃ w2, write_all_seq ⟨⟨.Int8, monoCenterChannels, 48000,
        calculate_max_samples monoCenterChannels .Int8⟩, [], 0⟩
        [monoCenterFrame 5, monoCenterFrame (-3)] = .ok w2 ∧
      ∀ i (hi : i < ([monoCenterFrame 5, monoCenterFrame (-3)] :
          List (SamplesByChannel Int)).length),
        read_sample ⟨w2.header, w2.data, w2.data.length⟩ (readNativeSample .Int8) i =
          .ok (([monoCenterFrame 5, monoCenterFrame (-3)] :
            List (SamplesByChannel Int)).get ⟨i, hi⟩) :=
  c1_native_roundtrip .Int8 monoCenterChannels 48000 [monoCenterFrame 5, monoCenterFrame (-3)]
    (by decide)
    (by
      intro f hf
      simp only [List.mem_cons, List.not_mem_nil, or_false] at hf
      rcases hf with rfl | rfl
      · exact monoCenterFrame_wf 5
      · exact monoCenterFrame_wf (-3))
    (by
      intro f hf o ho v hov
      subst hov
      simp only [List.mem_cons, List.not_mem_nil, or_false] at hf
      rcases hf with rfl | rfl <;>
        simp only [monoCenterFrame, SamplesByChannel.optsList, List.mem_cons,
          List.not_mem_nil, or_false, Option.some.injEq] at ho <;>
        simp_all <;> exact ⟨by decide, by decide⟩)
    (by decide)

/-- src/wave_reader/mod.rs `StreamWavReaderIterator`: the forward-only
reader — the underlying byte stream (`data`, with read position `pos`), the
declared `data`-chunk length, the header, and the `current_sample` counter. -/
structure StreamWavReaderIteratorM where
  header : WavHeaderM
  data : List Nat
  pos : Nat
  data_length : Nat
  current_sample : Nat
deriving DecidableEq, Repr

/-- `OpenWav::len_samples` as seen by the streaming iterator. -/
def stream_len_samples (st : StreamWavReaderIteratorM) : Nat :=
  st.data_length / st.header.sample_format.bytes_per_sample / st.header.channels.count

/-- One sequential `read_fixed_size` of `len` bytes: consume them, or consume
whatever remains and fail with `UnexpectedEof`. -/
def streamReadBytes (st : StreamWavReaderIteratorM) (len : Nat) :
    RResult (List Nat) × StreamWavReaderIteratorM :=
  if st.pos + len ≤ st.data.length then
    (.ok ((st.data.drop st.pos).take len), { st with pos := st.pos + len })
  else
    (.err ⟨.UnexpectedEof, "Unexpected end of file"⟩, { st with pos := st.data.length })

/-- `count` sequential sample reads of the bound conversion, stopping at the
first failure (the `?` operator in `read_samples`). -/
def streamReadVals (dec : List Nat → Int) :
    Nat → StreamWavReaderIteratorM → RResult (List Int) × StreamWavReaderIteratorM
  | 0, st => (.ok [], st)
  | Nat.succ k, st =>
    match (streamReadBytes st st.header.sample_format.bytes_per_sample).1 with
    | .ok bs =>
      (match (streamReadVals dec k
          (streamReadBytes st st.header.sample_format.bytes_per_sample).2).1 with
        | .ok rest => .ok (dec bs :: rest)
        | .err e => .err e,
       (streamReadVals dec k (streamReadBytes st st.header.sample_format.bytes_per_sample).2).2)
    | .err e => (.err e, (streamReadBytes st st.header.sample_format.bytes_per_sample).2)

/-- src/wave_reader/stream.rs `StreamWavReaderIterator::read_samples`: the
counter is incremented first (`self.current_sample += 1`), then one value per
present channel is read sequentially in canonical order. -/
def stream_read_samples (dec : List Nat → Int) (st : StreamWavReaderIteratorM) :
    RResult (SamplesByChannel Int) × StreamWavReaderIteratorM :=
  (match (streamReadVals dec st.header.channels.count
      { st with current_sample := st.current_sample + 1 }).1 with
    | .ok vals =>
      .ok (samplesOfOptsList (unpackChannels st.header.channels.flagsList vals))
    | .err e => .err e,
   (streamReadVals dec st.header.channels.count
      { st with current_sample := st.current_sample + 1 }).2)

/-- src/wave_reader/stream.rs `Iterator::next`: `None` once `current_sample`
has reached `len_samples`, otherwise `Some(read_samples())`. -/
def stream_next (dec : List Nat → Int) (st : StreamWavReaderIteratorM) :
    Option (RResult (SamplesByChannel Int)) × StreamWavReaderIteratorM :=
  if st.current_sample ≥ stream_len_samples st then
    (none, st)
  else
    let r := stream_read_samples dec st
    (some r.1, r.2)

/-- The iterator state after `k` calls to `next`. -/
def stream_advance (dec : List Nat → Int) (st : StreamWavReaderIteratorM) :
    Nat → StreamWavReaderIteratorM
  | 0 => st
  | Nat.succ k => (stream_next dec (stream_advance dec st k)).2

theorem streamReadBytes_const (st : StreamWavReaderIteratorM) (len : Nat) :
    (streamReadBytes st len).2.header = st.header ∧
    (streamReadBytes st len).2.data = st.data ∧
    (streamReadBytes st len).2.data_length = st.data_length ∧
    (streamReadBytes st len).2.current_sample = st.current_sample := by
  unfold streamReadBytes
  split <;> exact ⟨rfl, rfl, rfl, rfl⟩

theorem streamReadVals_const (dec : List Nat → Int) :
    ∀ (k : Nat) (st : StreamWavReaderIteratorM),
    (streamReadVals dec k st).2.header = st.header ∧
    (streamReadVals dec k st).2.data = st.data ∧
    (streamReadVals dec k st).2.data_length = st.data_length ∧
    (streamReadVals dec k st).2.current_sample = st.current_sample := by
  intro k
  induction k with
  | zero => exact fun st => ⟨rfl, rfl, rfl, rfl⟩
  | succ k ih =>
    intro st
    unfold streamReadVals
    obtain ⟨hh, hdt, hdl, hcs⟩ := streamReadBytes_const st st.header.sample_format.bytes_per_sample
    obtain ⟨ih1, ih2, ih3, ih4⟩ := ih (streamReadBytes st st.header.sample_format.bytes_per_sample).2
    cases hb : (streamReadBytes st st.header.sample_format.bytes_per_sample).1 with
    | ok bs =>
      cases hv2 : (streamReadVals dec k
          (streamReadBytes st st.header.sample_format.bytes_per_sample).2).1 <;>
        exact ⟨ih1.trans hh, ih2.trans hdt, ih3.trans hdl, ih4.trans hcs⟩
    | err e => exact ⟨hh, hdt, hdl, hcs⟩

theorem stream_next_none_iff (dec : List Nat → Int) (st : StreamWavReaderIteratorM) :
    (stream_next dec st).1 = none ↔ stream_len_samples st ≤ st.current_sample := by
  unfold stream_next
  split
  · rename_i h
    constructor
    · intro _
      omega
    · intro _
      rfl
  · rename_i h
    constructor
    · intro hsome
      exact Option.noConfusion hsome
    · intro hle
      exact absurd hle (by omega)

/-- C3 counterexample: a mono 8-bit stream whose header declares two frames
but whose stream holds no data.  The first `next()` returns `Some(Err(eof))`;
the claim demands every later call return `None`, yet the second call returns
`Some(Err(eof))` again. -/
theorem c3_poisoning_counterexample :
    (stream_next (readNativeSample .Int8)
        ⟨⟨.Int8, monoCenterChannels, 48000, 100⟩, [], 0, 2, 0⟩).1 =
      some (.err ⟨.UnexpectedEof, "Unexpected end of file"⟩) ∧
    (stream_next (readNativeSample .Int8)
        (stream_next (readNativeSample .Int8)
          ⟨⟨.Int8, monoCenterChannels, 48000, 100⟩, [], 0, 2, 0⟩).2).1 =
      some (.err ⟨.UnexpectedEof, "Unexpected end of file"⟩) := by
  decide

/-- C3 (amended): the iterator has no error poisoning.  Whenever `next()`
yields an item — `Ok` or `Err` — the sample counter advances by exactly one,
and the following call returns `None` precisely when that incremented counter
has reached `len_samples`; an error mid-sequence therefore consumes one index
and iteration simply continues. -/
theorem stream_read_samples_state (dec : List Nat → Int) (st : StreamWavReaderIteratorM) :
    (stream_read_samples dec st).2.current_sample = st.current_sample + 1 ∧
    (stream_read_samples dec st).2.header = st.header ∧
    (stream_read_samples dec st).2.data_length = st.data_length := by
  unfold stream_read_samples
  obtain ⟨hh, hdt, hdl, hcs⟩ := streamReadVals_const dec st.header.channels.count
    { st with current_sample := st.current_sample + 1 }
  exact ⟨hcs, hh, hdl⟩

theorem c3_no_poisoning (dec : List Nat → Int) (st : StreamWavReaderIteratorM)
    (r : RResult (SamplesByChannel Int)) (st2 : StreamWavReaderIteratorM)
    (h : stream_next dec st = (some r, st2)) :
    st2.current_sample = st.current_sample + 1 ∧
    ((stream_next dec st2).1 = none ↔ stream_len_samples st ≤ st.current_sample + 1) := by
  unfold stream_next at h
  split at h
  · exact Prod.noConfusion h (fun h1 _ => Option.noConfusion h1)
  · rename_i hlt
    have h2 : (stream_read_samples dec st).2 = st2 := congrArg Prod.snd h
    obtain ⟨key1, key2, key3⟩ := stream_read_samples_state dec st
    constructor
    · rw [← h2]
      exact key1
    · rw [stream_next_none_iff]
      have hl : stream_len_samples st2 = stream_len_samples st := by
        unfold stream_len_samples
        rw [← h2, key2, key3]
      rw [hl, ← h2, key1]

/-- C3 witness: the amended statement applied to the concrete empty-stream
iterator. -/
theorem c3_no_poisoning_witness :
    (⟨⟨.Int8, monoCenterChannels, 48000, 100⟩, [], 0, 2, 1⟩ :
        StreamWavReaderIteratorM).current_sample =
      (⟨⟨.Int8, monoCenterChannels, 48000, 100⟩, [], 0, 2, 0⟩ :
        StreamWavReaderIteratorM).current_sample + 1 ∧
    ((stream_next (readNativeSample .Int8)
        ⟨⟨.Int8, monoCenterChannels, 48000, 100⟩, [], 0, 2, 1⟩).1 = none ↔
      stream_len_samples (⟨⟨.Int8, monoCenterChannels, 48000, 100⟩, [], 0, 2, 0⟩ :
        StreamWavReaderIteratorM) ≤
        (⟨⟨.Int8, monoCenterChannels, 48000, 100⟩, [], 0, 2, 0⟩ :
          StreamWavReaderIteratorM).current_sample + 1) :=
  c3_no_poisoning (readNativeSample .Int8)
    ⟨⟨.Int8, monoCenterChannels, 48000, 100⟩, [], 0, 2, 0⟩
    (.err ⟨.UnexpectedEof, "Unexpected end of file"⟩)
    ⟨⟨.Int8, monoCenterChannels, 48000, 100⟩, [], 0, 2, 1⟩
    (by decide)

theorem streamReadVals_ok (dec : List Nat → Int) :
    ∀ (k : Nat) (st : StreamWavReaderIteratorM),
      st.pos + k * st.header.sample_format.bytes_per_sample ≤ st.data.length →
      streamReadVals dec k st =
        (.ok (decodeRange dec st.header.sample_format.bytes_per_sample st.data st.pos k),
         { st with pos := st.pos + k * st.header.sample_format.bytes_per_sample }) := by
  intro k
  induction k with
  | zero =>
    intro st h
    show ((.ok [], st) : RResult (List Int) × StreamWavReaderIteratorM) = _
    rw [Nat.zero_mul, Nat.add_zero]
    rfl
  | succ k ih =>
    intro st h
    have harith := Nat.add_mul k 1 st.header.sample_format.bytes_per_sample
    have hone := Nat.one_mul st.header.sample_format.bytes_per_sample
    have hb : streamReadBytes st st.header.sample_format.bytes_per_sample =
        (.ok ((st.data.drop st.pos).take st.header.sample_format.bytes_per_sample),
         { st with pos := st.pos + st.header.sample_format.bytes_per_sample }) := by
      unfold streamReadBytes
      rw [if_pos (by omega)]
    unfold streamReadVals
    simp only [hb]
    rw [ih { st with pos := st.pos + st.header.sample_format.bytes_per_sample }
      (by
        show st.pos + st.header.sample_format.bytes_per_sample +
          k * st.header.sample_format.bytes_per_sample ≤ st.data.length
        omega)]
    show ((.ok (dec ((st.data.drop st.pos).take st.header.sample_format.bytes_per_sample) ::
        decodeRange dec st.header.sample_format.bytes_per_sample st.data
          (st.pos + st.header.sample_format.bytes_per_sample) k),
      { st with pos := st.pos + st.header.sample_format.bytes_per_sample +
          k * st.header.sample_format.bytes_per_sample }) :
        RResult (List Int) × StreamWavReaderIteratorM) = _
    have harith2 : st.pos + st.header.sample_format.bytes_per_sample +
        k * st.header.sample_format.bytes_per_sample =
        st.pos + (k + 1) * st.header.sample_format.bytes_per_sample := by
      omega
    rw [harith2]
    rfl

theorem stream_advance_state (fmt : SampleFormat) (ch : Channels) (rate ms : Nat)
    (dec : List Nat → Int) (data : List Nat) (N : Nat)
    (hc : 1 ≤ ch.count)
    (hlen : data.length = N * (ch.count * fmt.bytes_per_sample)) :
    ∀ k, k ≤ N →
      stream_advance dec ⟨⟨fmt, ch, rate, ms⟩, data, 0, data.length, 0⟩ k =
        ⟨⟨fmt, ch, rate, ms⟩, data, k * (ch.count * fmt.bytes_per_sample), data.length, k⟩ := by
  have hbp := bytes_per_sample_pos fmt
  have hslk : ∀ p c2, stream_len_samples ⟨⟨fmt, ch, rate, ms⟩, data, p, data.length, c2⟩ = N := by
    intro p c2
    show data.length / fmt.bytes_per_sample / ch.count = N
    rw [hlen]
    exact frame_div _ _ _ hbp hc
  intro k
  induction k with
  | zero =>
    intro _
    show (⟨⟨fmt, ch, rate, ms⟩, data, 0, data.length, 0⟩ : StreamWavReaderIteratorM) = _
    rw [Nat.zero_mul]
  | succ k ih =>
    intro hk
    show (stream_next dec (stream_advance dec _ k)).2 = _
    rw [ih (by omega)]
    unfold stream_next
    rw [if_neg (by
      rw [hslk]
      show ¬ (k ≥ N)
      omega)]
    show (stream_read_samples dec
      ⟨⟨fmt, ch, rate, ms⟩, data, k * (ch.count * fmt.bytes_per_sample), data.length, k⟩).2 = _
    unfold stream_read_samples
    show (streamReadVals dec ch.count
      ⟨⟨fmt, ch, rate, ms⟩, data, k * (ch.count * fmt.bytes_per_sample), data.length,
        k + 1⟩).2 = _
    rw [streamReadVals_ok dec ch.count _ (by
      show k * (ch.count * fmt.bytes_per_sample) + ch.count * fmt.bytes_per_sample ≤ data.length
      rw [hlen]
      have h1 : (k + 1) * (ch.count * fmt.bytes_per_sample) ≤
          N * (ch.count * fmt.bytes_per_sample) := Nat.mul_le_mul_right _ (by omega)
      have h2 := Nat.add_mul k 1 (ch.count * fmt.bytes_per_sample)
      omega)]
    show (⟨⟨fmt, ch, rate, ms⟩, data, k * (ch.count * fmt.bytes_per_sample) +
      ch.count * fmt.bytes_per_sample, data.length, k + 1⟩ : StreamWavReaderIteratorM) = _
    have harith : k * (ch.count * fmt.bytes_per_sample) + ch.count * fmt.bytes_per_sample =
        (k + 1) * (ch.count * fmt.bytes_per_sample) := by
      have h2 := Nat.add_mul k 1 (ch.count * fmt.bytes_per_sample)
      omega
    rw [harith]

set_option maxHeartbeats 1000000 in
/-- C9: over a data chunk holding exactly `N` complete frames (with a nonzero
channel count and any bound element conversion — the same conversion is bound
by the stream and the random-access getters for a given file format and
element type, and all underlying reads succeed), the streaming iterator
yields exactly `N` `Ok` items and then `None`, and its `k`-th item equals
`read_sample k` of the random-access reader over the same bytes, for every
`k < N`. -/
theorem c9_stream_matches_random (fmt : SampleFormat) (ch : Channels) (rate ms : Nat)
    (dec : List Nat → Int) (data : List Nat) (N : Nat)
    (hc : 1 ≤ ch.count)
    (hlen : data.length = N * (ch.count * fmt.bytes_per_sample)) :
    (∀ k, k < N → ∃ sbc,
      stream_next dec (stream_advance dec ⟨⟨fmt, ch, rate, ms⟩, data, 0, data.length, 0⟩ k) =
        (some (.ok sbc),
         stream_advance dec ⟨⟨fmt, ch, rate, ms⟩, data, 0, data.length, 0⟩ (k + 1)) ∧
      read_sample ⟨⟨fmt, ch, rate, ms⟩, data, data.length⟩ dec k = .ok sbc) ∧
    (stream_next dec (stream_advance dec ⟨⟨fmt, ch, rate, ms⟩, data, 0, data.length, 0⟩ N)).1 =
      none := by
  have hbp := bytes_per_sample_pos fmt
  have hslk : ∀ p c2, stream_len_samples ⟨⟨fmt, ch, rate, ms⟩, data, p, data.length, c2⟩ = N := by
    intro p c2
    show data.length / fmt.bytes_per_sample / ch.count = N
    rw [hlen]
    exact frame_div _ _ _ hbp hc
  have hbound : ∀ k, k < N →
      k * (ch.count * fmt.bytes_per_sample) + ch.count * fmt.bytes_per_sample ≤ data.length := by
    intro k hk
    rw [hlen]
    have h1 : (k + 1) * (ch.count * fmt.bytes_per_sample) ≤
        N * (ch.count * fmt.bytes_per_sample) := Nat.mul_le_mul_right _ (by omega)
    have h2 := Nat.add_mul k 1 (ch.count * fmt.bytes_per_sample)
    omega
  constructor
  · intro k hk
    refine ⟨samplesOfOptsList (unpackChannels ch.flagsList
      (decodeRange dec fmt.bytes_per_sample data (k * (ch.count * fmt.bytes_per_sample))
        ch.count)), ?_, ?_⟩
    · rw [stream_advance_state fmt ch rate ms dec data N hc hlen k (by omega),
        stream_advance_state fmt ch rate ms dec data N hc hlen (k + 1) (by omega)]
      unfold stream_next
      rw [if_neg (by
        rw [hslk]
        show ¬ (k ≥ N)
        omega)]
      show (some (stream_read_samples dec
          ⟨⟨fmt, ch, rate, ms⟩, data, k * (ch.count * fmt.bytes_per_sample), data.length,
            k⟩).1,
        (stream_read_samples dec
          ⟨⟨fmt, ch, rate, ms⟩, data, k * (ch.count * fmt.bytes_per_sample), data.length,
            k⟩).2) = _
      unfold stream_read_samples
      rw [streamReadVals_ok dec ch.count
        ⟨⟨fmt, ch, rate, ms⟩, data, k * (ch.count * fmt.bytes_per_sample), data.length, k + 1⟩
        (hbound k hk)]
      have harith : k * (ch.count * fmt.bytes_per_sample) + ch.count * fmt.bytes_per_sample =
          (k + 1) * (ch.count * fmt.bytes_per_sample) := by
        have h2 := Nat.add_mul k 1 (ch.count * fmt.bytes_per_sample)
        omega
      rw [harith]
    · unfold read_sample
      have hlsr : len_samples ⟨⟨fmt, ch, rate, ms⟩, data, data.length⟩ = N := by
        show data.length / fmt.bytes_per_sample / ch.count = N
        rw [hlen]
        exact frame_div _ _ _ hbp hc
      rw [if_neg (by omega)]
      show (do
          let vals ← readValsAt dec fmt.bytes_per_sample data
            (k * ch.count * fmt.bytes_per_sample) ch.count
          pure (samplesOfOptsList (unpackChannels ch.flagsList vals))) = _
      rw [Nat.mul_assoc k ch.count fmt.bytes_per_sample,
        readValsAt_ok dec fmt.bytes_per_sample data ch.count
          (k * (ch.count * fmt.bytes_per_sample)) (hbound k hk),
        RResult.bind_ok, RResult.pure_eq]
  · rw [stream_advance_state fmt ch rate ms dec data N hc hlen N (Nat.le_refl N)]
    unfold stream_next
    rw [if_pos (by rw [hslk])]

/-- C9 witness: a concrete two-frame mono 8-bit stream. -/
theorem c9_stream_matches_random_witness :
    (∀ k, k < 2 → ∃ sbc,
      stream_next (readNativeSample .Int8)
        (stream_advance (readNativeSample .Int8)
          ⟨⟨.Int8, monoCenterChannels, 48000, 100⟩, [7, 200], 0,
            ([7, 200] : List Nat).length, 0⟩ k) =
        (some (.ok sbc),
         stream_advance (readNativeSample .Int8)
          ⟨⟨.Int8, monoCenterChannels, 48000, 100⟩, [7, 200], 0,
            ([7, 200] : List Nat).length, 0⟩ (k + 1)) ∧
      read_sample ⟨⟨.Int8, monoCenterChannels, 48000, 100⟩, [7, 200],
        ([7, 200] : List Nat).length⟩ (readNativeSample .Int8) k = .ok sbc) ∧
    (stream_next (readNativeSample .Int8)
      (stream_advance (readNativeSample .Int8)
        ⟨⟨.Int8, monoCenterChannels, 48000, 100⟩, [7, 200], 0,
          ([7, 200] : List Nat).length, 0⟩ 2)).1 = none :=
  c9_stream_matches_random .Int8 monoCenterChannels 48000 100 (readNativeSample .Int8)
    [7, 200] 2 (by decide) (by decide)

/-- src/wave_header.rs `WavHeader::to_writer`: the 48-byte extensible `fmt `
sub-chunk — the "fmt " tag, the declared size 18 + 22 = 40, the
WAVE_FORMAT_EXTENSIBLE fields, and the PCM (1) or IEEE-float (3) SubFormat
tag followed by the fixed 14-byte GUID suffix. -/
def to_writer (header : WavHeaderM) : List Nat :=
  let num_channels := header.channels.count
  let bytes_per_sample : Nat :=
    match header.sample_format with
    | .Float => 4
    | .Int24 => 3
    | .Int16 => 2
    | .Int8 => 1
  [0x66, 0x6D, 0x74, 0x20] ++ u32_le (18 + 22) ++
  u16_le 0xFFFE ++
  u16_le num_channels ++
  u32_le header.sample_rate ++
  u32_le (header.sample_rate * (num_channels * bytes_per_sample)) ++
  u16_le (num_channels * bytes_per_sample) ++
  u16_le (bytes_per_sample * 8) ++
  u16_le 22 ++
  u16_le (bytes_per_sample * 8) ++
  u32_le header.channels.channel_mask ++
  u16_le (match header.sample_format with | .Float => 3 | _ => 1) ++
  [0x00, 0x00, 0x00, 0x00, 0x10, 0x00, 0x80, 0x00, 0x00, 0xAA, 0x00, 0x38, 0x9B, 0x71]

/-- src/lib.rs `write_wav` followed by `OpenWavWriter::new_max_samples`: the
bytes written before any sample data — the 12-byte `RIFF    WAVE` preamble
(the four placeholder size bytes are the spaces, 0x20), the fmt sub-chunk,
and the `data` chunk header with a zero placeholder size.  `data_start` is
the length of this prefix. -/
def writeWavPrefix (header : WavHeaderM) : List Nat :=
  [0x52, 0x49, 0x46, 0x46, 0x20, 0x20, 0x20, 0x20, 0x57, 0x41, 0x56, 0x45] ++
  to_writer header ++
  ([0x64, 0x61, 0x74, 0x61] ++ u32_le 0)

/-- src/wave_writer/mod.rs `OpenWavWriter::flush`, applied to the whole
produced byte stream: `chunk_size = samples_written * num_channels *
bytes_per_sample` is written at `data_start - 4`, and the RIFF size field at
offset 4 receives `chunk_size + 32 - 8`. -/
def fileAfterFlush (w : OpenWavWriterM) : List Nat :=
  let chunk_size := w.samples_written *
    (w.header.channels.count * w.header.sample_format.bytes_per_sample)
  let base := writeWavPrefix w.header ++ w.data
  let base1 := overwriteAt base ((writeWavPrefix w.header).length - 4) (u32_le chunk_size)
  overwriteAt base1 4 (u32_le (chunk_size + 32 - 8))

/-- The little-endian u32 stored at byte offset `pos`. -/
def readU32At (data : List Nat) (pos : Nat) : Nat :=
  data.getD pos 0 + 256 * data.getD (pos + 1) 0 + 65536 * data.getD (pos + 2) 0 +
    16777216 * data.getD (pos + 3) 0

/-- C6: evaluation at the failing input.  A mono 8-bit writer that wrote one
sample and flushed produces a 69-byte file (12-byte preamble + 48-byte fmt
sub-chunk + 8-byte data header + 1 data byte), so the RIFF size field at
bytes 4..8 should hold 69 - 8 = 61; the code wrote `chunk_size + 32 - 8 = 25`
instead. -/
theorem c6_riff_size_field_bug :
    write_samples ⟨⟨.Int8, monoCenterChannels, 48000, 100⟩, [], 0⟩ 0 (monoCenterFrame 3) =
      .ok ⟨⟨.Int8, monoCenterChannels, 48000, 100⟩, [3], 1⟩ ∧
    (fileAfterFlush ⟨⟨.Int8, monoCenterChannels, 48000, 100⟩, [3], 1⟩).length = 69 ∧
    readU32At (fileAfterFlush ⟨⟨.Int8, monoCenterChannels, 48000, 100⟩, [3], 1⟩) 4 = 25 ∧
    (fileAfterFlush ⟨⟨.Int8, monoCenterChannels, 48000, 100⟩, [3], 1⟩).length - 8 = 61 := by
  decide

/-- A header-parsing outcome: a parsed value with the remaining stream, an
`io::Error`, or a Rust panic (division by zero, arithmetic overflow). -/
inductive PResult (α : Type) where
  | ok (value : α) (rest : List Nat)
  | err (e : IoError)
  | panicked (msg : String)
deriving DecidableEq, Repr

def pbind {α β : Type} (r : PResult α) (f : α → List Nat → PResult β) : PResult β :=
  match r with
  | .ok a rest => f a rest
  | .err e => .err e
  | .panicked m => .panicked m

/-- src/reader.rs `read_u16` (via `read_fixed_size`, which fails with
`UnexpectedEof` when the stream is too short). -/
def p_read_u16 (bs : List Nat) : PResult Nat :=
  match bs with
  | b0 :: b1 :: rest => .ok (b0 + 256 * b1) rest
  | _ => .err ⟨.UnexpectedEof, "Unexpected end of file"⟩

/-- src/reader.rs `read_u32`. -/
def p_read_u32 (bs : List Nat) : PResult Nat :=
  match bs with
  | b0 :: b1 :: b2 :: b3 :: rest =>
    .ok (b0 + 256 * b1 + 65536 * b2 + 16777216 * b3) rest
  | _ => .err ⟨.UnexpectedEof, "Unexpected end of file"⟩

/-- src/reader.rs `skip`: reads and discards `n` bytes one at a time. -/
def p_skip (n : Nat) (bs : List Nat) : PResult Unit :=
  if n ≤ bs.length then .ok () (bs.drop n)
  else .err ⟨.UnexpectedEof, "Unexpected end of file"⟩

/-- src/reader.rs `assert_str` for the literal `"fmt "`. -/
def p_assert_fmt (bs : List Nat) : PResult Unit :=
  match bs with
  | b0 :: b1 :: b2 :: b3 :: rest =>
    if b0 = 0x66 ∧ b1 = 0x6D ∧ b2 = 0x74 ∧ b3 = 0x20 then .ok () rest
    else .err ⟨.Unsupported, "Not a WAVE file"⟩
  | _ => .err ⟨.UnexpectedEof, "Unexpected end of file"⟩

/-- src/wave_header.rs `WavHeader::from_reader_classic`.  The final
`calculate_max_samples` divides `u32::MAX - 24` by the channel count, so a
declared channel count of 0 is a Rust division-by-zero panic, modelled as
`panicked`. -/
def from_reader_classic (subchunk_size : Nat) (bs : List Nat) : PResult WavHeaderM :=
  pbind (p_read_u16 bs) fun num_channels bs =>
  pbind (p_read_u32 bs) fun sample_rate bs =>
  pbind (p_read_u32 bs) fun _bytes_per_sec bs =>
  pbind (p_read_u16 bs) fun _data_block_size bs =>
  pbind (p_read_u16 bs) fun bits_per_sample bs =>
  pbind (if bits_per_sample = 32 then (.ok .Float bs : PResult SampleFormat)
    else if bits_per_sample ≤ 8 then .ok .Int8 bs
    else if bits_per_sample ≤ 16 then .ok .Int16 bs
    else if bits_per_sample ≤ 24 then .ok .Int24 bs
    else .err ⟨.Unsupported, "bits per sample unsupported"⟩) fun sample_format bs =>
  pbind (p_skip (subchunk_size - 16) bs) fun _ bs =>
  let channels : Channels :=
    ⟨decide (num_channels ≥ 1), decide (num_channels ≥ 2), decide (num_channels ≥ 3),
     decide (num_channels ≥ 4), decide (num_channels ≥ 5), decide (num_channels ≥ 6),
     decide (num_channels ≥ 7), decide (num_channels ≥ 8), decide (num_channels ≥ 9),
     decide (num_channels ≥ 10), decide (num_channels ≥ 11), decide (num_channels ≥ 12),
     decide (num_channels ≥ 13), decide (num_channels ≥ 14), decide (num_channels ≥ 15),
     decide (num_channels ≥ 16), decide (num_channels ≥ 17), decide (num_channels ≥ 18)⟩
  if channels.count = 0 then .panicked "attempt to divide by zero"
  else .ok ⟨sample_format, channels, sample_rate, calculate_max_samples channels sample_format⟩ bs

/-- src/wave_header.rs `WavHeader::from_reader_extensible`.  The skip amount
`subchunk_size - 24` is a `usize` subtraction: for `subchunk_size` in
`16..=23` it underflows, which panics in a debug build (modelled as
`panicked`; a release build wraps to a huge skip that then fails
`UnexpectedEof`); the `calculate_max_samples` division panics when the
derived channel count is 0. -/
def from_reader_extensible (subchunk_size : Nat) (bs : List Nat) : PResult WavHeaderM :=
  pbind (p_read_u16 bs) fun num_channels bs =>
  pbind (p_read_u32 bs) fun sample_rate bs =>
  pbind (p_read_u32 bs) fun _bytes_per_sec bs =>
  pbind (p_read_u16 bs) fun _data_block_size bs =>
  pbind (p_read_u16 bs) fun bits_per_sample bs =>
  pbind (if bits_per_sample = 32 then (.ok .Float bs : PResult SampleFormat)
    else if bits_per_sample ≤ 8 then .ok .Int8 bs
    else if bits_per_sample ≤ 16 then .ok .Int16 bs
    else if bits_per_sample ≤ 24 then .ok .Int24 bs
    else .err ⟨.Unsupported, "bits per sample unsupported"⟩) fun sample_format bs =>
  pbind (p_read_u16 bs) fun _cb_size bs =>
  pbind (p_read_u16 bs) fun _w_valid_bits_per_sample bs =>
  pbind (p_read_u32 bs) fun channel_mask bs =>
  if subchunk_size < 24 then .panicked "attempt to subtract with overflow"
  else
  pbind (p_skip (subchunk_size - 24) bs) fun _ bs =>
  let channels := channelsOfMask channel_mask
  if num_channels ≠ channels.count then
    .err ⟨.Unsupported,
      "Mismatch between number of channels specified in the header, and channel mask"⟩
  else if channels.count = 0 then .panicked "attempt to divide by zero"
  else .ok ⟨sample_format, channels, sample_rate, calculate_max_samples channels sample_format⟩ bs

/-- src/wave_header.rs `WavHeader::from_reader`: `"fmt "` marker, sub-chunk
size (must be at least 16), format tag dispatch (1/3 classic, 0xFFFE
extensible, otherwise unsupported). -/
def from_reader (bs : List Nat) : PResult WavHeaderM :=
  pbind (p_assert_fmt bs) fun _ bs =>
  pbind (p_read_u32 bs) fun subchunk_size bs =>
  if subchunk_size < 16 then
    .err ⟨.Unsupported, "Invalid header. fmt header must be size 16 or larger"⟩
  else
  pbind (p_read_u16 bs) fun audio_format bs =>
  if audio_format = 1 ∨ audio_format = 3 then from_reader_classic subchunk_size bs
  else if audio_format = 0xFFFE then from_reader_extensible subchunk_size bs
  else .err ⟨.Unsupported, "Unsupported audio format"⟩

/-- C10: evaluation at the failing inputs.  A classic header declaring 0
channels drives `calculate_max_samples` into a `u32` division by zero (a Rust
panic, in every build profile), and an extensible header whose declared fmt
size is 16 underflows the `usize` subtraction `subchunk_size - 24` (a panic
in debug builds); `from_reader` is therefore not total. -/
theorem c10_from_reader_panics :
    from_reader ([0x66, 0x6D, 0x74, 0x20] ++ u32_le 16 ++ u16_le 1 ++ u16_le 0 ++
        u32_le 48000 ++ u32_le 0 ++ u16_le 2 ++ u16_le 8) =
      .panicked "attempt to divide by zero" ∧
    from_reader ([0x66, 0x6D, 0x74, 0x20] ++ u32_le 16 ++ u16_le 0xFFFE ++ u16_le 2 ++
        u32_le 48000 ++ u32_le 0 ++ u16_le 4 ++ u16_le 16 ++ u16_le 22 ++ u16_le 16 ++
        u32_le 3) =
      .panicked "attempt to subtract with overflow" := by
  decide

end WaveStream
